import Mathlib

/-!
Verification of the bird-occurrence/climate data-cleaning and aggregation
pipeline (`src/data/cleaner.py` and the analysis modules).

A pandas `DataFrame` is embedded shallowly as a `Table`: a header assigning a
dtype to each column label, together with rows.  Each row is an association
list from column labels to cells, so column operations are key-based (as in
pandas) rather than positional.  Machine numbers (int64/float64 and the
nullable Int64/Float64 extension values) are embedded as rationals; `NaN`
and `pd.NA` are both the `Cell.na` cell; text cells are `Cell.str`.
-/

set_option maxHeartbeats 1000000

/-- Cells of a DataFrame: a missing value (NaN or NA), a numeric value, or text. -/
inductive Cell where
  | na : Cell
  | num : ℚ → Cell
  | str : String → Cell
deriving DecidableEq, Repr

/-- Column dtypes relevant to the pipeline: numpy int64/float64, the nullable
Int64/Float64 extension dtypes of the `fix_types` target map, and object. -/
inductive Dtype where
  | int64 : Dtype
  | float64 : Dtype
  | nInt64 : Dtype
  | nFloat64 : Dtype
  | obj : Dtype
deriving DecidableEq, Repr

/-- A row: an association list from column labels to cells. -/
abbrev Row := List (String × Cell)

/-- A DataFrame: a header of labelled, typed columns, plus the rows. -/
structure Table where
  header : List (String × Dtype)
  rows : List Row
deriving DecidableEq, Repr

/-- Column labels of a table (`df.columns`). -/
def colNames (t : Table) : List String := t.header.map Prod.fst

/-- First-match association-list lookup (how pandas resolves `df[col]` and
`row[col]`, labels being unique in well-formed frames). -/
def alook {κ β : Type} [DecidableEq κ] (k : κ) : List (κ × β) → Option β
  | [] => none
  | kv :: rest => if kv.1 = k then some kv.2 else alook k rest

/-- Map a function over the value stored at key `k`, leaving other entries alone. -/
def mapVal {κ β : Type} [DecidableEq κ] (k : κ) (f : β → β) (r : List (κ × β)) :
    List (κ × β) :=
  r.map (fun kv => if kv.1 = k then (kv.1, f kv.2) else kv)

/-- Auxiliary dedup that skips elements already in `seen`, keeping first occurrences. -/
def dedupFirstAux {α : Type} [DecidableEq α] (seen : List α) : List α → List α
  | [] => []
  | x :: xs => if x ∈ seen then dedupFirstAux seen xs else x :: dedupFirstAux (x :: seen) xs

/-- Keep the first occurrence of every element, in order of first appearance:
the semantics of `DataFrame.drop_duplicates()` on rows. -/
def dedupFirst {α : Type} [DecidableEq α] (l : List α) : List α := dedupFirstAux [] l

/-- Sort key for cells, mirroring the orderings Python and pandas use on the
homogeneous columns of this dataset: numbers by value, strings by code points.
Distinct kinds are ranked (missing, then numbers, then text). -/
def cellKey : Cell → ℕ ×ₗ ℚ ×ₗ List Char
  | Cell.na => toLex (0, toLex ((0 : ℚ), []))
  | Cell.num q => toLex (1, toLex (q, []))
  | Cell.str s => toLex (2, toLex ((0 : ℚ), s.toList))

/-- Sorted list of cells, as produced by Python `sorted(...)`. -/
def sortCells (l : List Cell) : List Cell :=
  List.insertionSort (fun a b => cellKey a ≤ cellKey b) l

/-- Text-cell test. -/
def isStrCell : Cell → Bool
  | Cell.str _ => true
  | _ => false

/-- Numeric view of a cell. -/
def cellNumQ : Cell → Option ℚ
  | Cell.num q => some q
  | _ => none

/-- Total numeric coercion used when the source arithmetic only ever sees
numeric cells (non-numbers are mapped to 0). -/
def qOfCell (c : Cell) : ℚ := (cellNumQ c).getD 0

/-- Column `c` of a row list, as the optional cell of each row. -/
def colOpt (rows : List Row) (c : String) : List (Option Cell) := rows.map (alook c)

/-- Cells present in column `c` across the rows (`df[c]` for well-formed frames). -/
def colVals (rows : List Row) (c : String) : List Cell := rows.filterMap (alook c)

/-- Numeric entries of column `c` (pandas reductions skip missing values). -/
def colNums (rows : List Row) (c : String) : List ℚ := (colVals rows c).filterMap cellNumQ

/-- Median of a list of rationals, as `Series.median()` computes it on the
non-missing entries: middle element of the sorted list, or the average of the
two middle elements; `none` on an empty list (pandas yields NaN there). -/
def medianQ (l : List ℚ) : Option ℚ :=
  let s := List.insertionSort (fun a b : ℚ => a ≤ b) l
  if s.length = 0 then none
  else if s.length % 2 = 1 then some (s.getD (s.length / 2) 0)
  else some ((s.getD (s.length / 2 - 1) 0 + s.getD (s.length / 2) 0) / 2)

/-- Mean of a list of rationals; `none` on an empty list (pandas yields NaN). -/
def meanQ (l : List ℚ) : Option ℚ :=
  if l.length = 0 then none else some (l.sum / l.length)

/-- Non-missing cells of a column (`mode` and friends drop NA by default). -/
def nonNaCells (l : List Cell) : List Cell := l.filter (fun c => decide (c ≠ Cell.na))

/-- Least cell of a list under `cellKey` (the `[0]` of a sorted mode Series). -/
def minCell : List Cell → Option Cell
  | [] => none
  | x :: xs =>
      some (match minCell xs with
            | none => x
            | some b => if cellKey b < cellKey x then b else x)

/-- Most frequent non-missing values of a column. -/
def modeCands (l : List Cell) : List Cell :=
  let vs := nonNaCells l
  let ds := dedupFirst vs
  let mx := (ds.map (fun x => vs.count x)).foldr max 0
  ds.filter (fun x => vs.count x = mx)

/-- Embedding of `Series.mode()[0]`: the least value among the most frequent
non-missing values (`mode()` returns them sorted; `[0]` takes the least), or
`none` when the column has no non-missing entry, in which case `mode()` is
empty and the subscript `[0]` raises. -/
def modeCell (l : List Cell) : Option Cell := minCell (modeCands l)

/-- Number of missing entries of column `c` (`df[c].isna().sum()`). -/
def missingCount (rows : List Row) (c : String) : ℕ :=
  rows.countP (fun r => decide (alook c r = some Cell.na))

/-- Numeric-dtype test (`pd.api.types.is_numeric_dtype`): everything except object. -/
def isNumericDtype : Dtype → Bool
  | Dtype.obj => false
  | _ => true

/-- One fill pass of `handle_missing` for a single retained column: if the
column has missing entries, a numeric-dtype column is filled with its median
(or mean, for any other selector string, matching the source's
`if fill_method == "median" else mean`); when the reduction is undefined
(no non-missing entry) pandas fills with NaN, a no-op.  A non-numeric column
is filled with `mode()[0]`, which raises — `none` here — when the column has
no non-missing entry. -/
def fillStep (fillMethod : String) (rs : List Row) (cd : String × Dtype) :
    Option (List Row) :=
  if 0 < missingCount rs cd.1 then
    if isNumericDtype cd.2 then
      match (if fillMethod = "median" then medianQ (colNums rs cd.1)
             else meanQ (colNums rs cd.1)) with
      | some v => some (rs.map (mapVal cd.1 (fun x => if x = Cell.na then Cell.num v else x)))
      | none => some rs
    else
      match modeCell (colVals rs cd.1) with
      | some v => some (rs.map (mapVal cd.1 (fun x => if x = Cell.na then v else x)))
      | none => none
  else some rs

/-- Embedding of `handle_missing(df, missing_threshold, fill_method)`
(src/data/cleaner.py:48).  Columns whose missing count strictly exceeds
`missing_threshold * len(df)` (i.e. whose missing ratio strictly exceeds the
threshold when the table has rows) are dropped; every remaining column with
missing entries is imputed per `fillStep`.  The result is `none` exactly when
the source raises (mode of a fully missing non-numeric column). -/
def handle_missing (t : Table) (missingThreshold : ℚ) (fillMethod : String) :
    Option Table :=
  let len := t.rows.length
  let dropP := fun (cd : String × Dtype) =>
    decide ((missingCount t.rows cd.1 : ℚ) > missingThreshold * len)
  let toDrop := (t.header.filter dropP).map Prod.fst
  let header1 := t.header.filter (fun cd => ! dropP cd)
  let rows1 := t.rows.map (fun r => r.filter (fun kv => ! decide (kv.1 ∈ toDrop)))
  (header1.foldlM (fillStep fillMethod) rows1).map (fun rs => ⟨header1, rs⟩)

/-- The drop test of `handle_missing`: missing count strictly above
`threshold * len(df)`. -/
def dropPred (t : Table) (q : ℚ) : (String × Dtype) → Bool :=
  fun cd => decide ((missingCount t.rows cd.1 : ℚ) > q * t.rows.length)

/-- Header entries surviving the drop step of `handle_missing`. -/
def keptHeader (t : Table) (q : ℚ) : List (String × Dtype) :=
  t.header.filter (fun cd => ! dropPred t q cd)

/-- Labels dropped by the drop step of `handle_missing`. -/
def droppedNames (t : Table) (q : ℚ) : List String :=
  (t.header.filter (dropPred t q)).map Prod.fst

/-- Rows of `handle_missing` after the dropped columns are removed. -/
def keptRows (t : Table) (q : ℚ) : List Row :=
  t.rows.map (fun r => r.filter (fun kv => ! decide (kv.1 ∈ droppedNames t q)))

/-- Embedding of `remove_duplicates(df)` (src/data/cleaner.py:102):
`drop_duplicates()` keeps the first occurrence of each group of identical rows. -/
def remove_duplicates (t : Table) : Table := ⟨t.header, dedupFirst t.rows⟩

/-- The fixed name-to-dtype map of `fix_types` (src/data/cleaner.py:158). -/
def type_map : List (String × Dtype) :=
  [("Year", Dtype.nInt64), ("Population", Dtype.nInt64),
   ("Latitude", Dtype.nFloat64), ("Longitude", Dtype.nFloat64),
   ("Temperature", Dtype.nFloat64), ("Precipitation", Dtype.nFloat64),
   ("Shift_km", Dtype.nFloat64)]

/-- Whether `astype` succeeds on one cell for the given target dtype: missing
cells always cast; numbers cast to Int64 only when integral (pandas refuses an
unsafe float cast) and always cast to Float64; in this embedding text never
casts (pandas rejects non-numeric text).  A successful cast does not change
the embedded value, so only the dtype moves. -/
def castOKCell (dt : Dtype) (c : Cell) : Bool :=
  match dt, c with
  | _, Cell.na => true
  | Dtype.nInt64, Cell.num q => decide (q.den = 1)
  | Dtype.nFloat64, Cell.num _ => true
  | _, _ => false

/-- Whether `astype(dt)` succeeds on a whole column. -/
def castOK (dt : Dtype) (cells : List Cell) : Bool := cells.all (castOKCell dt)

/-- Relabel the dtype of column `c`. -/
def setDtype (c : String) (dt : Dtype) (t : Table) : Table :=
  ⟨t.header.map (fun kd => if kd.1 = c then (kd.1, dt) else kd), t.rows⟩

/-- One step of `fix_types`: for a mapped column present in the table, attempt
the cast and keep the table unchanged on failure (the `except` branch). -/
def fix_types_step (t : Table) (cd : String × Dtype) : Table :=
  if cd.1 ∈ colNames t then
    if castOK cd.2 (colVals t.rows cd.1) then setDtype cd.1 cd.2 t else t
  else t

/-- Embedding of `fix_types(df)` (src/data/cleaner.py:133). -/
def fix_types (t : Table) : Table := type_map.foldl fix_types_step t

/-- The row filter of `validate_ranges`: `(df["Year"] >= yr_min) & (df["Year"] <= yr_max)`.
A missing year compares as NA and the row is dropped. -/
def yearInRange (yrMin yrMax : ℚ) (oc : Option Cell) : Bool :=
  match oc with
  | some (Cell.num q) => decide (yrMin ≤ q) && decide (q ≤ yrMax)
  | _ => false

/-- Embedding of `validate_ranges(df, year_range)` (src/data/cleaner.py:180),
default range `(1970, 2025)`: keeps the rows whose year lies in the inclusive
range, and is the identity when no `Year` column exists. -/
def validate_ranges (t : Table) (yrMin yrMax : ℚ) : Table :=
  if "Year" ∈ colNames t then
    ⟨t.header, t.rows.filter (fun r => yearInRange yrMin yrMax (alook "Year" r))⟩
  else t

/-- The ASCII upper-to-lower case table. -/
def upPairs : List (Char × Char) :=
  [('A', 'a'), ('B', 'b'), ('C', 'c'), ('D', 'd'), ('E', 'e'), ('F', 'f'),
   ('G', 'g'), ('H', 'h'), ('I', 'i'), ('J', 'j'), ('K', 'k'), ('L', 'l'),
   ('M', 'm'), ('N', 'n'), ('O', 'o'), ('P', 'p'), ('Q', 'q'), ('R', 'r'),
   ('S', 's'), ('T', 't'), ('U', 'u'), ('V', 'v'), ('W', 'w'), ('X', 'x'),
   ('Y', 'y'), ('Z', 'z')]

/-- The ASCII lower-to-upper case table. -/
def lowPairs : List (Char × Char) := upPairs.map (fun p => (p.2, p.1))

/-- ASCII lower-casing of one character (`str.lower`, restricted to the ASCII
labels this dataset uses). -/
def lowerChar (c : Char) : Char := (alook c upPairs).getD c

/-- ASCII upper-casing of one character. -/
def upperChar (c : Char) : Char := (alook c lowPairs).getD c

/-- ASCII letter test (`str.isalpha` on the ASCII text of this dataset). -/
def alphaChar (c : Char) : Bool := (alook c upPairs).isSome || (alook c lowPairs).isSome

/-- Embedding of Python `str.lower()` for the ASCII labels of the dataset. -/
def myLower (s : String) : String := String.mk (s.data.map lowerChar)

/-- Whitespace test matching what `str.strip()` removes on this data. -/
def wsChar (c : Char) : Bool := c = ' ' || c = '\t' || c = '\n' || c = '\r'

/-- Strip leading and trailing whitespace from a character list. -/
def trimList (l : List Char) : List Char :=
  ((l.dropWhile wsChar).reverse.dropWhile wsChar).reverse

/-- Strip trailing whitespace only (the second half of `trimList`). -/
def revDrop (l : List Char) : List Char := (l.reverse.dropWhile wsChar).reverse

/-- Embedding of Python `str.strip()`. -/
def myTrim (s : String) : String := String.mk (trimList s.data)

/-- Title-casing pass: a letter is upper-cased when the previous character was
not a letter, and lower-cased otherwise (Python `str.title()` on ASCII text). -/
def titleAux : Bool → List Char → List Char
  | _, [] => []
  | prev, c :: cs =>
      (if alphaChar c then (if prev then lowerChar c else upperChar c) else c) ::
        titleAux (alphaChar c) cs

/-- Embedding of Python `str.title()`. -/
def myTitle (s : String) : String := String.mk (titleAux false s.data)

/-- Text form of a cell (`astype(str)`); a missing float prints as "nan", and
a numeric cell prints via its rational value (integral values as the integer). -/
def cellToStr : Cell → String
  | Cell.na => "nan"
  | Cell.num q => if q.den = 1 then toString q.num else toString q
  | Cell.str s => s

/-- The per-cell transformation of `clean_text`:
`astype(str).str.strip().str.title()`. -/
def textCellClean (c : Cell) : Cell := Cell.str (myTitle (myTrim (cellToStr c)))

/-- The fixed text columns of `clean_text` (src/data/cleaner.py:238). -/
def text_cols : List String := ["Bird_Species", "Country"]

/-- One step of `clean_text` for one column name: when present, every cell of
the column is stripped and title-cased and the column becomes object dtype. -/
def clean_text_step (t : Table) (c : String) : Table :=
  if c ∈ colNames t then
    ⟨t.header.map (fun kd => if kd.1 = c then (kd.1, Dtype.obj) else kd),
     t.rows.map (mapVal c textCellClean)⟩
  else t

/-- Embedding of `clean_text(df)` (src/data/cleaner.py:214). -/
def clean_text (t : Table) : Table := text_cols.foldl clean_text_step t

/-- Embedding of `lowercase_columns(df)` (src/data/cleaner.py:252): every
column label is lower-cased (values untouched). -/
def lowercase_columns (t : Table) : Table :=
  ⟨t.header.map (fun kd => (myLower kd.1, kd.2)),
   t.rows.map (fun r => r.map (fun kv => (myLower kv.1, kv.2)))⟩

/-- Embedding of the in-memory part of `clean_bird_data` (src/data/cleaner.py:261):
the loader returns the table unchanged and the final save is I/O, so the
pipeline is `handle_missing` (defaults 0.5/median) → `remove_duplicates` →
`fix_types` → `validate_ranges` (default 1970–2025) → `clean_text` →
`lowercase_columns`.  `none` when a stage raises. -/
def clean_bird_data (t : Table) : Option Table :=
  (handle_missing t (1 / 2) "median").map (fun d =>
    lowercase_columns (clean_text (validate_ranges (fix_types (remove_duplicates d)) 1970 2025)))

/-- Species/year key pair of a row for the population group-by; `groupby`
drops groups whose key contains a missing value. -/
def spPair (r : Row) : Option (Cell × Cell) :=
  match alook "bird_species" r, alook "year" r with
  | some s, some y => if s = Cell.na ∨ y = Cell.na then none else some (s, y)
  | _, _ => none

/-- Rows of one (species, year) group. -/
def groupSY (rows : List Row) (s y : Cell) : List Row :=
  rows.filter (fun r =>
    decide (alook "bird_species" r = some s) && decide (alook "year" r = some y))

/-- One cell of the population pivot: the summed population of the (species,
year) group, or NA when that species has no row in that year (`pivot` leaves a
hole). -/
def pivotCell (rows : List Row) (s y : Cell) : Cell :=
  if groupSY rows s y = [] then Cell.na
  else Cell.num (colNums (groupSY rows s y) "population").sum

/-- Rows of one year group. -/
def yearRows (rows : List Row) (y : Cell) : List Row :=
  rows.filter (fun r => decide (alook "year" r = some y))

/-- Mean of column `c` over the rows of year `y` (`groupby("year")[...].mean()`):
NA when the group has no numeric entry. -/
def meanCellOf (rows : List Row) (c : String) (y : Cell) : Cell :=
  match meanQ (colNums (yearRows rows y) c) with
  | some v => Cell.num v
  | none => Cell.na

/-- Index of the population pivot: the distinct non-missing years that occur in
a row with a non-missing species, sorted (group-by sorts its keys). -/
def pivotYears (rows : List Row) : List Cell :=
  sortCells (dedupFirst ((rows.filterMap spPair).map Prod.snd))

/-- Columns of the population pivot: the distinct non-missing species values, sorted. -/
def pivotSpecies (rows : List Row) : List Cell :=
  sortCells (dedupFirst ((rows.filterMap spPair).map Prod.fst))

/-- Index of the per-year climate-average table: every distinct non-missing year. -/
def avgYears (rows : List Row) : List Cell :=
  sortCells (dedupFirst ((colVals rows "year").filter (fun c => decide (c ≠ Cell.na))))

/-- Embedding of `model_data_spyros(df)` (src/data/cleaner.py:304) and of the
identical `prepare_data` (src/analysis/rs1.py:7, which uses the pre-lower-case
labels): per-(species, year) population sums pivoted to one column per
species, inner-joined on year with the per-year means of temperature,
precipitation and traffic. -/
def model_data_spyros (rows : List Row) : List Row :=
  ((pivotYears rows).filter (fun y => decide (y ∈ avgYears rows))).map (fun y =>
    ("year", y) ::
      (((pivotSpecies rows).map (fun s => (cellToStr s, pivotCell rows s y))) ++
        [("temperature", meanCellOf rows "temperature" y),
         ("precipitation", meanCellOf rows "precipitation" y),
         ("traffic", meanCellOf rows "traffic" y)]))

/-- First row attaining the maximum of `f`, ties resolved to the earliest row:
the semantics of `df.loc[df[col].idxmax()]`.  `none` exactly on no rows. -/
def pickMax (f : Row → ℚ) : List Row → Option Row
  | [] => none
  | x :: xs =>
      some (match pickMax f xs with
            | none => x
            | some b => if f b ≤ f x then x else b)

/-- Shift distance of a row as a number (the aggregator only ever compares
numeric shift cells). -/
def shiftQ (r : Row) : ℚ := qOfCell ((alook "shift_km" r).getD Cell.na)

/-- Rows of one (country, species) group (the first filter of the aggregator). -/
def groupCS (rows : List Row) (c s : Cell) : List Row :=
  rows.filter (fun r =>
    decide (alook "country" r = some c) && decide (alook "bird_species" r = some s))

/-- Rows of a (country, species) group restricted to one year (the second filter). -/
def annualRows (csdf : List Row) (y : Cell) : List Row :=
  csdf.filter (fun r => decide (alook "year" r = some y))

/-- The summary record appended for one (country, species, year) group, copying
shift, population and temperature from the maximising row. -/
def mkStat (c s y : Cell) (m : Row) : Row :=
  [("country", c), ("bird_species", s), ("year", y),
   ("max_shift_km", (alook "shift_km" m).getD Cell.na),
   ("population_at_max_shift", (alook "population" m).getD Cell.na),
   ("temperature_at_max_shift", (alook "temperature" m).getD Cell.na)]

/-- Sorted distinct values of a column: `sorted(set(df[c]))`. -/
def distinctSorted (rows : List Row) (c : String) : List Cell :=
  sortCells (dedupFirst (colVals rows c))

/-- The inner two loops of the shift aggregator for a fixed country and
species: skip the pair when its group is empty, then emit one record per year
with data, from the row with the maximum shift. -/
def statsFor (rows : List Row) (c s : Cell) : List Row :=
  if groupCS rows c s = [] then []
  else (distinctSorted rows "year").filterMap (fun y =>
    match pickMax shiftQ (annualRows (groupCS rows c s) y) with
    | none => none
    | some m => some (mkStat c s y m))

/-- Sort key of the final `sort_values(by="year")`. -/
def rowYearKey (r : Row) : ℕ ×ₗ ℚ ×ₗ List Char := cellKey ((alook "year" r).getD Cell.na)

/-- The `stats_by_year` list accumulated by the shift aggregator's nested
loops: one record per non-empty (country, species, year) group, from the
row with the maximum shift. -/
def shiftStats (rows : List Row) : List Row :=
  (distinctSorted rows "country").flatMap (fun c =>
    (distinctSorted rows "bird_species").flatMap (fun s => statsFor rows c s))

/-- Embedding of `get_bird_shift_climate_and_land_usage_data(df)`
(src/data/cleaner.py:337; src/analysis/research_question_2.py:11 is the same
code on pre-lower-case labels): nested iteration over sorted distinct
countries, species and years, one record per non-empty group carrying the
maximum-shift row's data, sorted ascending by year.  When no record was
collected, `pd.DataFrame([])` has no columns at all and the final
`sort_values(by="year")` raises `KeyError` — `none` here. -/
def get_bird_shift_climate_and_land_usage_data (rows : List Row) : Option (List Row) :=
  if shiftStats rows = [] then none
  else some (List.insertionSort (fun a b => rowYearKey a ≤ rowYearKey b) (shiftStats rows))

/-- Rows of one country group. -/
def countryRows (rows : List Row) (c : Cell) : List Row :=
  rows.filter (fun r => decide (alook "country" r = some c))

/-- Non-missing species cells recorded in one country. -/
def speciesOf (rows : List Row) (c : Cell) : List Cell :=
  (colVals (countryRows rows c) "bird_species").filter (fun x => decide (x ≠ Cell.na))

/-- Modelled from the spec: `model_data_mahfuz` is imported and called by
`build_species_per_country_table` (src/analysis/mahfuz_rs.py:16) but its body
(said to live in data/cleaner.py) is not among the sources.  Per spec §4.11:
"Groups by country, counts distinct species per group. Output: one row per
country with a species count", with the column labels `country` and
`species_count` that the caller's chart binds to.  Group-by sorts its keys and
drops a missing key; a distinct-count ignores missing values. -/
def model_data_mahfuz (rows : List Row) : List Row :=
  (sortCells (dedupFirst ((colVals rows "country").filter (fun c => decide (c ≠ Cell.na))))).map
    (fun c => [("country", c),
               ("species_count", Cell.num ((dedupFirst (speciesOf rows c)).length : ℕ))])

/-- Embedding of `build_species_per_country_table(df)` (src/analysis/mahfuz_rs.py:8):
delegates to `model_data_mahfuz`. -/
def build_species_per_country_table (rows : List Row) : List Row := model_data_mahfuz rows

/-- A table is well formed when every row carries exactly the header's labels,
in header order (every pandas DataFrame satisfies this by construction). -/
def wfTable (t : Table) : Prop := ∀ r ∈ t.rows, r.map Prod.fst = colNames t

/-- Cells are consistent with their column's dtype to the extent
`handle_missing` relies on: a numeric-dtype column holds no text cell (pandas
cannot represent text inside an int64/float64/Int64/Float64 column). -/
def cellNumericOK (dt : Dtype) (c : Cell) : Bool :=
  match c with
  | Cell.str _ => ! isNumericDtype dt
  | _ => true

/-- Every cell of every numeric-dtype column is non-text (true of every pandas
DataFrame by construction). -/
def wfCells (t : Table) : Prop :=
  ∀ r ∈ t.rows, ∀ cd ∈ t.header, ∀ c, alook cd.1 r = some c → cellNumericOK cd.2 c = true

/-- A label is lower-case when it contains no ASCII upper-case letter. -/
def noUpper (s : String) : Bool := s.data.all (fun ch => (alook ch upPairs).isNone)

/-- The canonically cased column labels the spec documents for the raw CSV (§6). -/
def canonNames : List String :=
  ["Year", "Population", "Bird_Species", "Country", "Temperature",
   "Precipitation", "Latitude", "Longitude", "Shift_km", "Traffic"]

/-- Input labels use the canonical casing documented for the raw CSV (spec §6):
any label that lower-cases like a documented label is exactly that label. -/
def canonicalCasing (t : Table) : Prop :=
  ∀ k ∈ colNames t, ∀ c0 ∈ canonNames, myLower k = myLower c0 → k = c0

/-- Counterexample input for the end-to-end invariant: two rows that differ
only in the casing of the species text, a text-valued `Temperature` column,
and a pair of labels (`Year`/`year`, `Bird_Species`/`bird_species`) that
collide once labels are lower-cased. -/
def exC1 : Table :=
  ⟨[("Bird_Species", Dtype.obj), ("bird_species", Dtype.obj), ("Country", Dtype.obj),
    ("Year", Dtype.int64), ("year", Dtype.int64), ("Temperature", Dtype.obj)],
   [[("Bird_Species", Cell.str "asian koel"), ("bird_species", Cell.str "  x  "),
     ("Country", Cell.str "India"), ("Year", Cell.num 2000), ("year", Cell.num 1900),
     ("Temperature", Cell.str "hot")],
    [("Bird_Species", Cell.str "Asian Koel"), ("bird_species", Cell.str "  x  "),
     ("Country", Cell.str "India"), ("Year", Cell.num 2000), ("year", Cell.num 1900),
     ("Temperature", Cell.str "hot")]]⟩

/-- A small well-formed canonical input used to witness the end-to-end theorem. -/
def exPipe : Table :=
  ⟨[("Bird_Species", Dtype.obj), ("Year", Dtype.int64)],
   [[("Bird_Species", Cell.str "  asian koel  "), ("Year", Cell.num 2000)],
    [("Bird_Species", Cell.str "house crow"), ("Year", Cell.num 1960)]]⟩

/-- The pipeline output on `exC1`: the two rows became identical (the species
text was case-normalised after deduplication), the two year labels collided,
the out-of-range year 1900 survived (`validate_ranges` only reads the
canonical `Year` column), and the failed `Temperature` cast left dtype
`object`. -/
def exC1out : Table :=
  ⟨[("bird_species", Dtype.obj), ("bird_species", Dtype.obj), ("country", Dtype.obj),
    ("year", Dtype.nInt64), ("year", Dtype.int64), ("temperature", Dtype.obj)],
   [[("bird_species", Cell.str "Asian Koel"), ("bird_species", Cell.str "  x  "),
     ("country", Cell.str "India"), ("year", Cell.num 2000), ("year", Cell.num 1900),
     ("temperature", Cell.str "hot")],
    [("bird_species", Cell.str "Asian Koel"), ("bird_species", Cell.str "  x  "),
     ("country", Cell.str "India"), ("year", Cell.num 2000), ("year", Cell.num 1900),
     ("temperature", Cell.str "hot")]]⟩

/-- A canonical, complete, pre-normalised input on which the end-to-end
invariants hold. -/
def exClean : Table :=
  ⟨[("Bird_Species", Dtype.obj), ("Year", Dtype.int64)],
   [[("Bird_Species", Cell.str "Asian Koel"), ("Year", Cell.num 2000)],
    [("Bird_Species", Cell.str "House Crow"), ("Year", Cell.num 1960)]]⟩

/-- The pipeline output on `exClean`: the 1960 row is dropped, `Year` becomes
nullable Int64, labels are lower-cased. -/
def exCleanOut : Table :=
  ⟨[("bird_species", Dtype.obj), ("year", Dtype.nInt64)],
   [[("bird_species", Cell.str "Asian Koel"), ("year", Cell.num 2000)]]⟩

/-- A numeric column that is entirely missing: retained when the threshold is
at least 1, and then left unfilled because the median of no data is NaN. -/
def exAllNaNum : Table := ⟨[("x", Dtype.float64)], [[("x", Cell.na)]]⟩

/-- A non-numeric column that is entirely missing: `mode()[0]` raises on it. -/
def exAllNaObj : Table := ⟨[("c", Dtype.obj)], [[("c", Cell.na)]]⟩

/-- Missing-value fixture: a numeric column with one gap, a text column with
one gap, and a column missing in 3 rows of 4 (ratio above the 0.5 threshold). -/
def exHM : Table :=
  ⟨[("a", Dtype.float64), ("b", Dtype.obj), ("s", Dtype.float64)],
   [[("a", Cell.num 1), ("b", Cell.str "x"), ("s", Cell.na)],
    [("a", Cell.na), ("b", Cell.str "y"), ("s", Cell.na)],
    [("a", Cell.num 4), ("b", Cell.na), ("s", Cell.num 7)],
    [("a", Cell.num 10), ("b", Cell.str "x"), ("s", Cell.na)]]⟩

/-- The table `handle_missing` produces from `exHM` with the default
threshold and median fill. -/
def exHMout : Table :=
  ⟨[("a", Dtype.float64), ("b", Dtype.obj)],
   [[("a", Cell.num 1), ("b", Cell.str "x")],
    [("a", Cell.num 4), ("b", Cell.str "y")],
    [("a", Cell.num 4), ("b", Cell.str "x")],
    [("a", Cell.num 10), ("b", Cell.str "x")]]⟩

/-- Type-coercion fixture: an integral year column that casts, and a text
temperature column whose cast fails. -/
def texC7 : Table :=
  ⟨[("Year", Dtype.int64), ("Temperature", Dtype.obj)],
   [[("Year", Cell.num 2000), ("Temperature", Cell.str "hot")]]⟩

/-- Range-validation fixture: years 1969, 1970, 2025, 2026. -/
def exYears : Table :=
  ⟨[("Year", Dtype.int64)],
   [[("Year", Cell.num 1969)], [("Year", Cell.num 1970)],
    [("Year", Cell.num 2025)], [("Year", Cell.num 2026)]]⟩

/-- Shift-aggregator fixture: one country and species with shifts 10, 45, 22
in three different years (the spec's testable property). -/
def exShift : List Row :=
  [[("country", Cell.str "India"), ("bird_species", Cell.str "Koel"),
    ("year", Cell.num 2000), ("shift_km", Cell.num 10),
    ("population", Cell.num 5), ("temperature", Cell.num 21)],
   [("country", Cell.str "India"), ("bird_species", Cell.str "Koel"),
    ("year", Cell.num 2001), ("shift_km", Cell.num 45),
    ("population", Cell.num 6), ("temperature", Cell.num 22)],
   [("country", Cell.str "India"), ("bird_species", Cell.str "Koel"),
    ("year", Cell.num 2002), ("shift_km", Cell.num 22),
    ("population", Cell.num 7), ("temperature", Cell.num 23)]]

/-- The aggregator's output on `exShift`: one record per year, carrying that
year's (unique) row's shift, population and temperature, ascending by year. -/
def exShiftOut : List Row :=
  [[("country", Cell.str "India"), ("bird_species", Cell.str "Koel"),
    ("year", Cell.num 2000), ("max_shift_km", Cell.num 10),
    ("population_at_max_shift", Cell.num 5), ("temperature_at_max_shift", Cell.num 21)],
   [("country", Cell.str "India"), ("bird_species", Cell.str "Koel"),
    ("year", Cell.num 2001), ("max_shift_km", Cell.num 45),
    ("population_at_max_shift", Cell.num 6), ("temperature_at_max_shift", Cell.num 22)],
   [("country", Cell.str "India"), ("bird_species", Cell.str "Koel"),
    ("year", Cell.num 2002), ("max_shift_km", Cell.num 22),
    ("population_at_max_shift", Cell.num 7), ("temperature_at_max_shift", Cell.num 23)]]

/-- Yearly-aggregator fixture: two species with known per-year populations and
climate readings. -/
def exSpy : List Row :=
  [[("bird_species", Cell.str "A"), ("year", Cell.num 2000), ("population", Cell.num 3),
    ("temperature", Cell.num 20), ("precipitation", Cell.num 5), ("traffic", Cell.num 1)],
   [("bird_species", Cell.str "A"), ("year", Cell.num 2000), ("population", Cell.num 4),
    ("temperature", Cell.num 22), ("precipitation", Cell.num 7), ("traffic", Cell.num 3)],
   [("bird_species", Cell.str "B"), ("year", Cell.num 2000), ("population", Cell.num 10),
    ("temperature", Cell.num 24), ("precipitation", Cell.num 9), ("traffic", Cell.num 5)],
   [("bird_species", Cell.str "B"), ("year", Cell.num 2001), ("population", Cell.num 11),
    ("temperature", Cell.num 25), ("precipitation", Cell.num 6), ("traffic", Cell.num 2)]]

/-- Diversity fixture: two countries, with two and one distinct species. -/
def exDiv : List Row :=
  [[("country", Cell.str "India"), ("bird_species", Cell.str "Koel")],
   [("country", Cell.str "India"), ("bird_species", Cell.str "Crane")],
   [("country", Cell.str "China"), ("bird_species", Cell.str "Crane")],
   [("country", Cell.str "India"), ("bird_species", Cell.str "Koel")]]

section Helpers

variable {κ β : Type} [DecidableEq κ]

theorem alook_cons (k : κ) (kv : κ × β) (rest : List (κ × β)) :
    alook k (kv :: rest) = if kv.1 = k then some kv.2 else alook k rest := rfl

theorem alook_mapVal_self (k : κ) (f : β → β) (r : List (κ × β)) :
    alook k (mapVal k f r) = (alook k r).map f := by
  induction r with
  | nil => rfl
  | cons kv rest ih =>
      simp only [mapVal, List.map_cons] at ih ⊢
      by_cases h : kv.1 = k
      · simp [alook_cons, h]
      · simp [alook_cons, h, ih]

theorem alook_mapVal_ne {k k2 : κ} (h : k2 ≠ k) (f : β → β) (r : List (κ × β)) :
    alook k (mapVal k2 f r) = alook k r := by
  induction r with
  | nil => rfl
  | cons kv rest ih =>
      simp only [mapVal, List.map_cons] at ih ⊢
      by_cases h2 : kv.1 = k2
      · have hne : ¬ kv.1 = k := fun hc => h (h2 ▸ hc)
        simp [alook_cons, h2, hne, ih, h]
      · simp only [if_neg h2]
        by_cases hk : kv.1 = k
        · simp [alook_cons, hk]
        · simp [alook_cons, hk, ih]

theorem alook_filter_keys (k : κ) (p : κ → Bool) (r : List (κ × β)) :
    alook k (r.filter (fun kv => p kv.1)) = if p k then alook k r else none := by
  induction r with
  | nil => simp [alook]
  | cons kv rest ih =>
      by_cases hk : kv.1 = k
      · subst hk
        by_cases hp : p kv.1 <;> simp [alook_cons, hp, ih]
      · by_cases hp : p kv.1 <;> simp [alook_cons, hk, hp, ih]

theorem mem_of_alook {k : κ} {v : β} {r : List (κ × β)} (h : alook k r = some v) :
    (k, v) ∈ r := by
  induction r with
  | nil => simp [alook] at h
  | cons kv rest ih =>
      rw [alook_cons] at h
      by_cases hk : kv.1 = k
      · rw [if_pos hk] at h
        have hv : kv.2 = v := by injection h
        have hkv : kv = (k, v) := by
          rw [← hk, ← hv]
        rw [← hkv]
        exact List.mem_cons_self _ _
      · rw [if_neg hk] at h
        exact List.mem_cons_of_mem _ (ih h)

theorem alook_eq_none_iff {k : κ} {r : List (κ × β)} :
    alook k r = none ↔ k ∉ r.map Prod.fst := by
  induction r with
  | nil => simp [alook]
  | cons kv rest ih =>
      rw [alook_cons]
      by_cases hk : kv.1 = k
      · simp [hk]
      · simp only [if_neg hk, ih, List.map_cons, List.mem_cons]
        constructor
        · intro hn hc
          rcases hc with hc | hc
          · exact hk hc.symm
          · exact hn hc
        · intro hn hc
          exact hn (Or.inr hc)

theorem alook_of_mem_nodup {k : κ} {v : β} {r : List (κ × β)}
    (hn : (r.map Prod.fst).Nodup) (h : (k, v) ∈ r) : alook k r = some v := by
  induction r with
  | nil => simp at h
  | cons kv rest ih =>
      simp only [List.map_cons, List.nodup_cons] at hn
      rcases List.mem_cons.1 h with h1 | h1
      · rw [← h1]
        simp [alook_cons]
      · have hne : ¬ kv.1 = k := by
          intro he
          exact hn.1 (he ▸ (List.mem_map.2 ⟨(k, v), h1, rfl⟩))
        rw [alook_cons, if_neg hne]
        exact ih hn.2 h1

end Helpers

section DedupLemmas

variable {α : Type} [DecidableEq α]

theorem mem_dedupFirstAux {l : List α} {seen : List α} {x : α} :
    x ∈ dedupFirstAux seen l ↔ x ∈ l ∧ x ∉ seen := by
  induction l generalizing seen with
  | nil => simp [dedupFirstAux]
  | cons y ys ih =>
      simp only [dedupFirstAux]
      by_cases h : y ∈ seen
      · rw [if_pos h, ih]
        simp only [List.mem_cons]
        constructor
        · rintro ⟨hx, hs⟩
          exact ⟨Or.inr hx, hs⟩
        · rintro ⟨hxy | hx, hs⟩
          · exact absurd (hxy ▸ h) hs
          · exact ⟨hx, hs⟩
      · rw [if_neg h]
        simp only [List.mem_cons, ih, List.mem_cons, not_or]
        constructor
        · rintro (rfl | ⟨hx, hs1, hs2⟩)
          · exact ⟨Or.inl rfl, h⟩
          · exact ⟨Or.inr hx, hs2⟩
        · rintro ⟨rfl | hx, hs⟩
          · exact Or.inl rfl
          · by_cases hxy : x = y
            · exact Or.inl hxy
            · exact Or.inr ⟨hx, hxy, hs⟩

theorem nodup_dedupFirstAux {l : List α} {seen : List α} :
    (dedupFirstAux seen l).Nodup := by
  induction l generalizing seen with
  | nil => simp [dedupFirstAux]
  | cons y ys ih =>
      simp only [dedupFirstAux]
      by_cases h : y ∈ seen
      · rw [if_pos h]
        exact ih
      · rw [if_neg h]
        refine List.nodup_cons.2 ⟨?_, ih⟩
        intro hc
        exact (mem_dedupFirstAux.1 hc).2 (List.mem_cons_self _ _)

theorem mem_dedupFirst {l : List α} {x : α} : x ∈ dedupFirst l ↔ x ∈ l := by
  unfold dedupFirst
  rw [mem_dedupFirstAux]
  simp

theorem nodup_dedupFirst (l : List α) : (dedupFirst l).Nodup := nodup_dedupFirstAux

theorem dedupFirstAux_congr_seen {l : List α} {s1 s2 : List α}
    (h : ∀ x, x ∈ s1 ↔ x ∈ s2) : dedupFirstAux s1 l = dedupFirstAux s2 l := by
  induction l generalizing s1 s2 with
  | nil => rfl
  | cons y ys ih =>
      simp only [dedupFirstAux]
      by_cases hy : y ∈ s1
      · rw [if_pos hy, if_pos ((h y).1 hy)]
        exact ih h
      · rw [if_neg hy, if_neg (fun hc => hy ((h y).2 hc))]
        congr 1
        refine ih (fun x => ?_)
        simp only [List.mem_cons]
        exact or_congr Iff.rfl (h x)

theorem dedupFirstAux_filter (l : List α) : ∀ (s2 s : List α),
    dedupFirstAux s (l.filter (fun y => decide (y ∉ s2))) = dedupFirstAux (s2 ++ s) l := by
  induction l with
  | nil =>
      intro s2 s
      rfl
  | cons y ys ih =>
      intro s2 s
      by_cases h2 : y ∈ s2
      · have hfil : (y :: ys).filter (fun z => decide (z ∉ s2)) =
            ys.filter (fun z => decide (z ∉ s2)) := by
          simp [h2]
        rw [hfil, ih s2 s]
        simp only [dedupFirstAux]
        rw [if_pos (List.mem_append.2 (Or.inl h2))]
      · have hfil : (y :: ys).filter (fun z => decide (z ∉ s2)) =
            y :: ys.filter (fun z => decide (z ∉ s2)) := by
          simp [h2]
        rw [hfil]
        simp only [dedupFirstAux]
        by_cases hs : y ∈ s
        · rw [if_pos hs, if_pos (List.mem_append.2 (Or.inr hs)), ih s2 s]
        · have hys : y ∉ s2 ++ s := by
            intro hc
            rcases List.mem_append.1 hc with hc | hc
            · exact h2 hc
            · exact hs hc
          rw [if_neg hs, if_neg hys, ih s2 (y :: s)]
          congr 1
          refine dedupFirstAux_congr_seen (fun x => ?_)
          simp only [List.mem_append, List.mem_cons]
          constructor
          · rintro (hx | (rfl | hx))
            · exact Or.inr (Or.inl hx)
            · exact Or.inl rfl
            · exact Or.inr (Or.inr hx)
          · rintro (rfl | (hx | hx))
            · exact Or.inr (Or.inl rfl)
            · exact Or.inl hx
            · exact Or.inr (Or.inr hx)

theorem dedupFirstAux_eq_filter (l : List α) (seen : List α) :
    dedupFirstAux seen l = dedupFirst (l.filter (fun y => decide (y ∉ seen))) := by
  unfold dedupFirst
  rw [dedupFirstAux_filter l seen []]
  exact dedupFirstAux_congr_seen (by simp)

theorem dedupFirst_cons (x : α) (xs : List α) :
    dedupFirst (x :: xs) = x :: dedupFirst (xs.filter (fun y => decide (y ≠ x))) := by
  have h0 : dedupFirst (x :: xs) = x :: dedupFirstAux [x] xs := by
    simp [dedupFirst, dedupFirstAux]
  rw [h0, dedupFirstAux_eq_filter]
  congr 2
  refine List.filter_congr (fun a ha => ?_)
  by_cases h1 : a = x <;> simp [h1]

theorem dedupFirst_of_nodup {l : List α} (h : l.Nodup) : dedupFirst l = l := by
  have aux : ∀ (l2 : List α) (seen : List α), l2.Nodup → (∀ x ∈ l2, x ∉ seen) →
      dedupFirstAux seen l2 = l2 := by
    intro l2
    induction l2 with
    | nil =>
        intro seen _ _
        rfl
    | cons y ys ih =>
        intro seen h2 hdisj
        simp only [dedupFirstAux]
        rw [if_neg (hdisj y (List.mem_cons_self _ _))]
        congr 1
        refine ih _ (List.nodup_cons.1 h2).2 ?_
        intro x hx hc
        rcases List.mem_cons.1 hc with hc2 | hc2
        · exact (List.nodup_cons.1 h2).1 (hc2 ▸ hx)
        · exact hdisj x (List.mem_cons_of_mem _ hx) hc2
  exact aux l [] h (by simp)

theorem dedupFirst_idem (l : List α) : dedupFirst (dedupFirst l) = dedupFirst l :=
  dedupFirst_of_nodup (nodup_dedupFirst l)

theorem count_dedupFirst (l : List α) (x : α) :
    (dedupFirst l).count x = if x ∈ l then 1 else 0 := by
  by_cases h : x ∈ l
  · rw [if_pos h]
    exact List.count_eq_one_of_mem (nodup_dedupFirst l) (mem_dedupFirst.2 h)
  · rw [if_neg h]
    exact List.count_eq_zero.2 (fun hc => h (mem_dedupFirst.1 hc))

theorem dedupFirst_perm_dedup (l : List α) : (dedupFirst l).Perm l.dedup := by
  refine List.perm_iff_count.2 (fun x => ?_)
  rw [count_dedupFirst, List.count_dedup]

theorem length_dedupFirst (l : List α) : (dedupFirst l).length = l.toFinset.card := by
  rw [(dedupFirst_perm_dedup l).length_eq, List.card_toFinset]

end DedupLemmas

section MaxModeLemmas

theorem pickMax_eq_none_iff (f : Row → ℚ) (l : List Row) :
    pickMax f l = none ↔ l = [] := by
  cases l <;> simp [pickMax]

theorem pickMax_mem {f : Row → ℚ} (l : List Row) :
    ∀ (m : Row), pickMax f l = some m → m ∈ l := by
  induction l with
  | nil =>
      intro m h
      simp [pickMax] at h
  | cons x xs ih =>
      intro m h
      rcases hx : pickMax f xs with _ | b
      · have hm : m = x := by
          simp only [pickMax, hx, Option.some_inj] at h
          exact h.symm
        rw [hm]
        exact List.mem_cons_self _ _
      · have hm : m = if f b ≤ f x then x else b := by
          simp only [pickMax, hx, Option.some_inj] at h
          exact h.symm
        by_cases hle : f b ≤ f x
        · rw [hm, if_pos hle]
          exact List.mem_cons_self _ _
        · rw [hm, if_neg hle]
          exact List.mem_cons_of_mem _ (ih b hx)

theorem pickMax_le {f : Row → ℚ} (l : List Row) :
    ∀ (m : Row), pickMax f l = some m → ∀ r ∈ l, f r ≤ f m := by
  induction l with
  | nil =>
      intro m h r hr
      simp at hr
  | cons x xs ih =>
      intro m h r hr
      rcases hx : pickMax f xs with _ | b
      · have hnil : xs = [] := (pickMax_eq_none_iff f xs).1 hx
        subst hnil
        have hm : m = x := by
          simp [pickMax] at h
          exact h.symm
        rcases List.mem_cons.1 hr with rfl | hr2
        · rw [hm]
        · simp at hr2
      · have hm : m = if f b ≤ f x then x else b := by
          simp only [pickMax, hx, Option.some_inj] at h
          exact h.symm
        by_cases hle : f b ≤ f x
        · rw [hm, if_pos hle]
          rcases List.mem_cons.1 hr with rfl | hr2
          · exact le_refl _
          · exact le_trans (ih b hx r hr2) hle
        · rw [hm, if_neg hle]
          rcases List.mem_cons.1 hr with rfl | hr2
          · exact le_of_not_le hle
          · exact ih b hx r hr2

theorem minCell_isSome {l : List Cell} (h : l ≠ []) : ∃ v, minCell l = some v := by
  cases l with
  | nil => exact absurd rfl h
  | cons x xs => exact ⟨_, rfl⟩

theorem le_foldr_max (L : List ℕ) : ∀ x ∈ L, x ≤ L.foldr max 0 := by
  induction L with
  | nil => simp
  | cons y ys ih =>
      intro x hx
      rcases List.mem_cons.1 hx with rfl | hx2
      · exact le_max_left _ _
      · exact le_trans (ih x hx2) (le_max_right _ _)

theorem foldr_max_attained (L : List ℕ) : L.foldr max 0 = 0 ∨ L.foldr max 0 ∈ L := by
  induction L with
  | nil => exact Or.inl rfl
  | cons y ys ih =>
      rcases max_choice y (ys.foldr max 0) with h | h
      · refine Or.inr ?_
        rw [List.foldr_cons, h]
        exact List.mem_cons_self _ _
      · rcases ih with h2 | h2
        · refine Or.inl ?_
          rw [List.foldr_cons, h, h2]
        · refine Or.inr ?_
          rw [List.foldr_cons, h]
          exact List.mem_cons_of_mem _ h2

theorem modeCands_eq (l : List Cell) :
    modeCands l = (dedupFirst (nonNaCells l)).filter
      (fun x => decide ((nonNaCells l).count x =
        ((dedupFirst (nonNaCells l)).map (fun x => (nonNaCells l).count x)).foldr max 0)) := rfl

theorem modeCell_isSome {l : List Cell} (h : nonNaCells l ≠ []) :
    ∃ v, modeCell l = some v := by
  have hvs : ∃ c, c ∈ nonNaCells l := by
    cases hnn : nonNaCells l with
    | nil => exact absurd hnn h
    | cons c cs =>
        refine ⟨c, ?_⟩
        exact List.mem_cons_self _ _
  rcases hvs with ⟨c, hc⟩
  have hcd : c ∈ dedupFirst (nonNaCells l) := mem_dedupFirst.2 hc
  have hcands : modeCands l ≠ [] := by
    rw [modeCands_eq]
    rcases foldr_max_attained ((dedupFirst (nonNaCells l)).map
        (fun x => (nonNaCells l).count x)) with h0 | hmem
    · have h1 : (nonNaCells l).count c ≤
          ((dedupFirst (nonNaCells l)).map (fun x => (nonNaCells l).count x)).foldr max 0 :=
        le_foldr_max _ _ (List.mem_map.2 ⟨c, hcd, rfl⟩)
      have h2 : 0 < (nonNaCells l).count c := List.count_pos_iff.2 hc
      rw [h0] at h1
      omega
    · rcases List.mem_map.1 hmem with ⟨a, ha, hae⟩
      refine List.ne_nil_of_mem (a := a) (List.mem_filter.2 ⟨ha, ?_⟩)
      simp [hae]
  unfold modeCell
  exact minCell_isSome hcands

end MaxModeLemmas

section CountLemmas

variable {α β : Type}

theorem countP_flatMap (l : List α) (g : α → List β) (p : β → Bool) :
    (l.flatMap g).countP p = (l.map (fun a => (g a).countP p)).sum := by
  induction l with
  | nil => rfl
  | cons x xs ih =>
      simp only [List.flatMap_cons, List.countP_append, List.map_cons, List.sum_cons, ih]

theorem countP_filterMap (l : List α) (g : α → Option β) (p : β → Bool) :
    (l.filterMap g).countP p =
      (l.map (fun a => ((g a).toList).countP p)).sum := by
  induction l with
  | nil => rfl
  | cons x xs ih =>
      rcases hx : g x with _ | b
      · simp [List.filterMap_cons, hx, ih]
      · simp only [List.filterMap_cons, hx, List.countP_cons, List.map_cons,
          List.sum_cons, ih, Option.toList_some]
        simp [List.countP_cons]
        omega

theorem sum_map_eq_single {l : List α} {f : α → ℕ} {a : α}
    (ha : a ∈ l) (hn : l.Nodup) (hz : ∀ b ∈ l, b ≠ a → f b = 0) :
    (l.map f).sum = f a := by
  induction l with
  | nil => simp at ha
  | cons x xs ih =>
      rcases List.nodup_cons.1 hn with ⟨hx, hxs⟩
      rcases List.mem_cons.1 ha with rfl | ha2
      · simp only [List.map_cons, List.sum_cons]
        have hzero : (xs.map f).sum = 0 := by
          refine List.sum_eq_zero (fun n hni => ?_)
          rcases List.mem_map.1 hni with ⟨b, hb, rfl⟩
          refine hz b (List.mem_cons_of_mem _ hb) (fun hc => hx (hc ▸ hb))
        rw [hzero]
        omega
      · simp only [List.map_cons, List.sum_cons]
        have hfx : f x = 0 :=
          hz x (List.mem_cons_self _ _) (fun hc => hx (hc ▸ ha2))
        rw [hfx, ih ha2 hxs (fun b hb => hz b (List.mem_cons_of_mem _ hb))]
        omega

theorem sum_map_eq_zero {l : List α} {f : α → ℕ}
    (hz : ∀ b ∈ l, f b = 0) : (l.map f).sum = 0 := by
  refine List.sum_eq_zero (fun n hni => ?_)
  rcases List.mem_map.1 hni with ⟨b, hb, rfl⟩
  exact hz b hb

end CountLemmas

section SortTransfer

theorem sortCells_perm (l : List Cell) : (sortCells l).Perm l :=
  List.perm_insertionSort _ l

theorem mem_sortCells {l : List Cell} {x : Cell} : x ∈ sortCells l ↔ x ∈ l :=
  (sortCells_perm l).mem_iff

theorem nodup_sortCells {l : List Cell} (h : l.Nodup) : (sortCells l).Nodup :=
  ((sortCells_perm l).nodup_iff).2 h

theorem countP_sortCells (l : List Cell) (p : Cell → Bool) :
    (sortCells l).countP p = l.countP p :=
  (sortCells_perm l).countP_eq p

end SortTransfer

section CharLemmas

theorem wsChar_lowerChar (c : Char) : wsChar (lowerChar c) = wsChar c := by
  unfold lowerChar
  rcases h : alook c upPairs with _ | v
  · rfl
  · have hm : (c, v) ∈ upPairs := mem_of_alook h
    have hall : ∀ p ∈ upPairs, wsChar p.2 = false ∧ wsChar p.1 = false := by decide
    rcases hall (c, v) hm with ⟨h2, h1⟩
    simp [h2, h1]

theorem wsChar_upperChar (c : Char) : wsChar (upperChar c) = wsChar c := by
  unfold upperChar
  rcases h : alook c lowPairs with _ | v
  · rfl
  · have hm : (c, v) ∈ lowPairs := mem_of_alook h
    have hall : ∀ p ∈ lowPairs, wsChar p.2 = false ∧ wsChar p.1 = false := by decide
    rcases hall (c, v) hm with ⟨h2, h1⟩
    simp [h2, h1]

theorem alphaChar_lowerChar (c : Char) : alphaChar (lowerChar c) = alphaChar c := by
  unfold lowerChar
  rcases h : alook c upPairs with _ | v
  · rfl
  · have hm : (c, v) ∈ upPairs := mem_of_alook h
    have hall : ∀ p ∈ upPairs, alphaChar p.2 = true ∧ alphaChar p.1 = true := by decide
    rcases hall (c, v) hm with ⟨h2, h1⟩
    simp [h2, h1]

theorem alphaChar_upperChar (c : Char) : alphaChar (upperChar c) = alphaChar c := by
  unfold upperChar
  rcases h : alook c lowPairs with _ | v
  · rfl
  · have hm : (c, v) ∈ lowPairs := mem_of_alook h
    have hall : ∀ p ∈ lowPairs, alphaChar p.2 = true ∧ alphaChar p.1 = true := by decide
    rcases hall (c, v) hm with ⟨h2, h1⟩
    simp [h2, h1]

theorem lowerChar_lowerChar (c : Char) : lowerChar (lowerChar c) = lowerChar c := by
  unfold lowerChar
  rcases h : alook c upPairs with _ | v
  · simp [h]
  · have hm : (c, v) ∈ upPairs := mem_of_alook h
    have hall : ∀ p ∈ upPairs, alook p.2 upPairs = none := by decide
    simp [hall (c, v) hm]

theorem upperChar_upperChar (c : Char) : upperChar (upperChar c) = upperChar c := by
  unfold upperChar
  rcases h : alook c lowPairs with _ | v
  · simp [h]
  · have hm : (c, v) ∈ lowPairs := mem_of_alook h
    have hall : ∀ p ∈ lowPairs, alook p.2 lowPairs = none := by decide
    simp [hall (c, v) hm]

theorem noUpper_lowerChar (c : Char) : (alook (lowerChar c) upPairs).isNone = true := by
  unfold lowerChar
  rcases h : alook c upPairs with _ | v
  · simp [h]
  · have hm : (c, v) ∈ upPairs := mem_of_alook h
    have hall : ∀ p ∈ upPairs, alook p.2 upPairs = none := by decide
    simp [hall (c, v) hm]

theorem noUpper_myLower (s : String) : noUpper (myLower s) = true := by
  unfold noUpper myLower
  simp only [List.all_eq_true]
  intro ch hch
  rcases List.mem_map.1 hch with ⟨c, _, rfl⟩
  exact noUpper_lowerChar c

end CharLemmas

section TrimTitleLemmas

theorem ws_not_alpha {c : Char} (h : wsChar c = true) : alphaChar c = false := by
  have hc : c = ' ' ∨ c = '\t' ∨ c = '\n' ∨ c = '\r' := by
    unfold wsChar at h
    simpa [or_assoc] using h
  rcases hc with rfl | rfl | rfl | rfl <;> decide

theorem titleAux_map_wsChar (l : List Char) : ∀ (b : Bool),
    (titleAux b l).map wsChar = l.map wsChar := by
  induction l with
  | nil =>
      intro b
      rfl
  | cons c cs ih =>
      intro b
      simp only [titleAux, List.map_cons, ih]
      congr 1
      by_cases ha : alphaChar c
      · by_cases hb : b <;> simp [ha, hb, wsChar_lowerChar, wsChar_upperChar]
      · simp [ha]

theorem titleAux_idem (l : List Char) : ∀ (b : Bool),
    titleAux b (titleAux b l) = titleAux b l := by
  induction l with
  | nil =>
      intro b
      rfl
  | cons c cs ih =>
      intro b
      by_cases ha : alphaChar c
      · by_cases hb : b
        · simp only [titleAux, ha, hb, if_true, if_pos]
          rw [alphaChar_lowerChar, lowerChar_lowerChar]
          simp [ha, ih]
        · simp only [titleAux, ha, hb, if_true, if_false, Bool.false_eq_true]
          rw [alphaChar_upperChar, upperChar_upperChar]
          simp [ha, ih]
      · simp only [titleAux, ha, Bool.false_eq_true, if_false]
        rw [ih]

theorem dropWhile_idem (p : Char → Bool) (l : List Char) :
    (l.dropWhile p).dropWhile p = l.dropWhile p := by
  induction l with
  | nil => rfl
  | cons x xs ih =>
      by_cases h : p x <;> simp [List.dropWhile_cons, h, ih]

theorem head?_dropWhile_not (p : Char → Bool) (l : List Char) :
    ∀ c, (l.dropWhile p).head? = some c → p c = false := by
  induction l with
  | nil =>
      intro c h
      simp at h
  | cons x xs ih =>
      intro c h
      by_cases hx : p x
      · rw [List.dropWhile_cons, if_pos hx] at h
        exact ih c h
      · rw [List.dropWhile_cons, if_neg hx] at h
        have hxc : x = c := by
          simpa using h
        rw [← hxc]
        exact Bool.eq_false_iff.2 hx

theorem dropWhile_eq_self_of_head {p : Char → Bool} {l : List Char}
    (h : ∀ c, l.head? = some c → p c = false) : l.dropWhile p = l := by
  cases l with
  | nil => rfl
  | cons x xs =>
      have hx : p x = false := h x rfl
      rw [List.dropWhile_cons]
      simp [hx]

theorem dropWhile_append_ne_nil {p : Char → Bool} {u : List Char}
    (h : u.dropWhile p ≠ []) (v : List Char) :
    (u ++ v).dropWhile p = u.dropWhile p ++ v := by
  induction u with
  | nil => exact absurd rfl h
  | cons x xs ih =>
      by_cases hx : p x
      · rw [List.dropWhile_cons, if_pos hx] at h
        rw [List.cons_append, List.dropWhile_cons, if_pos hx,
          List.dropWhile_cons, if_pos hx]
        exact ih h
      · rw [List.cons_append, List.dropWhile_cons, if_neg hx,
          List.dropWhile_cons, if_neg hx, List.cons_append]

theorem dropWhile_append_nil {p : Char → Bool} {u : List Char}
    (h : u.dropWhile p = []) (v : List Char) :
    (u ++ v).dropWhile p = v.dropWhile p := by
  induction u with
  | nil => rw [List.nil_append]
  | cons x xs ih =>
      by_cases hx : p x
      · rw [List.dropWhile_cons, if_pos hx] at h
        rw [List.cons_append, List.dropWhile_cons, if_pos hx]
        exact ih h
      · rw [List.dropWhile_cons, if_neg hx] at h
        simp at h

theorem dropWhile_append_singleton {p : Char → Bool} {c : Char} (hc : p c = false)
    (u : List Char) : (u ++ [c]).dropWhile p = u.dropWhile p ++ [c] := by
  by_cases h : u.dropWhile p = []
  · rw [dropWhile_append_nil h, h, List.nil_append]
    simp [List.dropWhile_cons, hc]
  · exact dropWhile_append_ne_nil h [c]

theorem dropWhile_revDrop (l : List Char) :
    (revDrop l).dropWhile wsChar = revDrop (l.dropWhile wsChar) := by
  induction l with
  | nil => rfl
  | cons c cs ih =>
      by_cases hc : wsChar c
      · have hrhs : (c :: cs).dropWhile wsChar = cs.dropWhile wsChar := by
          rw [List.dropWhile_cons, if_pos hc]
        rw [hrhs]
        by_cases hnil : cs.reverse.dropWhile wsChar = []
        · have hlhs : revDrop (c :: cs) = [] := by
            unfold revDrop
            rw [List.reverse_cons, dropWhile_append_nil hnil, List.dropWhile_cons,
              if_pos hc]
            rfl
          have hrd : revDrop cs = [] := by
            unfold revDrop
            rw [hnil]
            rfl
          rw [hlhs, ← ih, hrd]
        · have hlhs : revDrop (c :: cs) = c :: revDrop cs := by
            unfold revDrop
            rw [List.reverse_cons, dropWhile_append_ne_nil hnil, List.reverse_append]
            rfl
          rw [hlhs, List.dropWhile_cons, if_pos hc]
          exact ih
      · have hcf : wsChar c = false := Bool.eq_false_iff.2 hc
        have hlhs : revDrop (c :: cs) = c :: revDrop cs := by
          unfold revDrop
          rw [List.reverse_cons, dropWhile_append_singleton hcf, List.reverse_append]
          rfl
        have hrhs : (c :: cs).dropWhile wsChar = c :: cs := by
          rw [List.dropWhile_cons, if_neg hc]
        rw [hrhs, hlhs, List.dropWhile_cons, if_neg hc, ← hlhs]

theorem revDrop_idem (l : List Char) : revDrop (revDrop l) = revDrop l := by
  unfold revDrop
  rw [List.reverse_reverse, dropWhile_idem]

theorem trimList_eq_revDrop (l : List Char) :
    trimList l = revDrop (l.dropWhile wsChar) := rfl

theorem trimList_idem (l : List Char) : trimList (trimList l) = trimList l := by
  rw [trimList_eq_revDrop, trimList_eq_revDrop, dropWhile_revDrop, dropWhile_idem,
    revDrop_idem]

theorem trimList_head_not_ws (l : List Char) :
    ∀ c, (trimList l).head? = some c → wsChar c = false := by
  intro c h
  rw [trimList_eq_revDrop, ← dropWhile_revDrop] at h
  exact head?_dropWhile_not wsChar (revDrop l) c h

theorem trimList_reverse_head_not_ws (l : List Char) :
    ∀ c, (trimList l).reverse.head? = some c → wsChar c = false := by
  intro c h
  rw [trimList_eq_revDrop] at h
  unfold revDrop at h
  rw [List.reverse_reverse] at h
  exact head?_dropWhile_not wsChar _ c h

theorem head_ws_transfer {l1 l2 : List Char}
    (hm : l1.map wsChar = l2.map wsChar)
    (h : ∀ c, l2.head? = some c → wsChar c = false) :
    ∀ c, l1.head? = some c → wsChar c = false := by
  intro c hc
  have h1 : (l1.map wsChar).head? = some (wsChar c) := by
    rw [List.head?_map, hc]
    rfl
  rw [hm, List.head?_map] at h1
  rcases Option.map_eq_some'.1 h1 with ⟨c2, hc2, hw⟩
  rw [← hw]
  exact h c2 hc2

theorem trimList_titleAux (l : List Char) :
    trimList (titleAux false (trimList l)) = titleAux false (trimList l) := by
  have hmap : (titleAux false (trimList l)).map wsChar = (trimList l).map wsChar :=
    titleAux_map_wsChar (trimList l) false
  have h1 : (titleAux false (trimList l)).dropWhile wsChar = titleAux false (trimList l) :=
    dropWhile_eq_self_of_head (head_ws_transfer hmap (trimList_head_not_ws l))
  have hmapr : (titleAux false (trimList l)).reverse.map wsChar =
      (trimList l).reverse.map wsChar := by
    rw [List.map_reverse, List.map_reverse, hmap]
  have h2 : (titleAux false (trimList l)).reverse.dropWhile wsChar =
      (titleAux false (trimList l)).reverse :=
    dropWhile_eq_self_of_head (head_ws_transfer hmapr (trimList_reverse_head_not_ws l))
  show ((((titleAux false (trimList l)).dropWhile wsChar).reverse.dropWhile wsChar).reverse) =
    titleAux false (trimList l)
  rw [h1, h2, List.reverse_reverse]

theorem textCellClean_fix (x : Cell) :
    ∃ s, textCellClean x = Cell.str s ∧ myTrim s = s ∧ myTitle s = s := by
  refine ⟨myTitle (myTrim (cellToStr x)), rfl, ?_, ?_⟩
  · show String.mk (trimList (titleAux false (trimList (cellToStr x).data))) =
      String.mk (titleAux false (trimList (cellToStr x).data))
    rw [trimList_titleAux]
  · show String.mk (titleAux false (titleAux false (trimList (cellToStr x).data))) =
      String.mk (titleAux false (trimList (cellToStr x).data))
    rw [titleAux_idem]

end TrimTitleLemmas

section ColOptLemmas

theorem colOpt_map_mapVal_self (rs : List Row) (c : String) (f : Cell → Cell) :
    colOpt (rs.map (mapVal c f)) c = (colOpt rs c).map (Option.map f) := by
  unfold colOpt
  rw [List.map_map, List.map_map]
  refine List.map_congr_left (fun r hr => ?_)
  exact alook_mapVal_self c f r

theorem colOpt_map_mapVal_ne {c0 c : String} (h : c0 ≠ c) (rs : List Row)
    (f : Cell → Cell) : colOpt (rs.map (mapVal c0 f)) c = colOpt rs c := by
  unfold colOpt
  rw [List.map_map]
  refine List.map_congr_left (fun r hr => ?_)
  exact alook_mapVal_ne h f r

theorem missingCount_eq_countP_colOpt (rs : List Row) (c : String) :
    missingCount rs c = (colOpt rs c).countP (fun oc => decide (oc = some Cell.na)) := by
  unfold missingCount colOpt
  rw [List.countP_map]
  rfl

theorem colVals_eq_filterMap_colOpt (rs : List Row) (c : String) :
    colVals rs c = (colOpt rs c).filterMap id := by
  unfold colVals colOpt
  rw [List.filterMap_map]
  rfl

theorem filterMap_id_map_optionMap (l : List (Option Cell)) (f : Cell → Cell) :
    (l.map (Option.map f)).filterMap id = (l.filterMap id).map f := by
  induction l with
  | nil => rfl
  | cons oc rest ih =>
      rcases oc with _ | x <;> simp [ih]

theorem colVals_map_mapVal_self (rs : List Row) (c : String) (f : Cell → Cell) :
    colVals (rs.map (mapVal c f)) c = (colVals rs c).map f := by
  rw [colVals_eq_filterMap_colOpt, colVals_eq_filterMap_colOpt,
    colOpt_map_mapVal_self, filterMap_id_map_optionMap]

theorem missingCount_of_colOpt_eq {rs1 rs2 : List Row} {c : String}
    (h : colOpt rs1 c = colOpt rs2 c) : missingCount rs1 c = missingCount rs2 c := by
  rw [missingCount_eq_countP_colOpt, missingCount_eq_countP_colOpt, h]

theorem colVals_of_colOpt_eq {rs1 rs2 : List Row} {c : String}
    (h : colOpt rs1 c = colOpt rs2 c) : colVals rs1 c = colVals rs2 c := by
  rw [colVals_eq_filterMap_colOpt, colVals_eq_filterMap_colOpt, h]

theorem missingCount_fill_self (rs : List Row) (c : String) {v : Cell}
    (hv : v ≠ Cell.na) :
    missingCount (rs.map (mapVal c (fun x => if x = Cell.na then v else x))) c = 0 := by
  rw [missingCount_eq_countP_colOpt, colOpt_map_mapVal_self]
  rw [List.countP_map]
  refine List.countP_eq_zero.2 (fun oc hoc => ?_)
  rcases oc with _ | x
  · simp
  · by_cases hx : x = Cell.na <;> simp [hx, hv]

theorem nonNa_fill_preserved {rs : List Row} {c : String} {v : Cell}
    (hne : nonNaCells (colVals rs c) ≠ []) (c0 : String) :
    nonNaCells (colVals (rs.map (mapVal c0 (fun x => if x = Cell.na then v else x))) c) ≠ [] := by
  have hex : ∃ x, x ∈ nonNaCells (colVals rs c) := by
    cases hc : nonNaCells (colVals rs c) with
    | nil => exact absurd hc hne
    | cons y ys => exact ⟨y, List.mem_cons_self _ _⟩
  rcases hex with ⟨x, hx⟩
  rcases List.mem_filter.1 hx with ⟨hmem, hxna⟩
  have hxna2 : x ≠ Cell.na := by simpa using hxna
  by_cases hcc : c0 = c
  · subst hcc
    refine List.ne_nil_of_mem (a := x) (List.mem_filter.2 ⟨?_, by simpa using hxna2⟩)
    rw [colVals_map_mapVal_self]
    refine List.mem_map.2 ⟨x, hmem, ?_⟩
    rw [if_neg hxna2]
  · refine List.ne_nil_of_mem (a := x) (List.mem_filter.2 ⟨?_, by simpa using hxna2⟩)
    rw [colVals_of_colOpt_eq (colOpt_map_mapVal_ne hcc rs _)]
    exact hmem

end ColOptLemmas

section MedianModeLemmas

theorem medianQ_isSome {l : List ℚ} (h : l ≠ []) : ∃ v, medianQ l = some v := by
  have h0 : ¬ (List.insertionSort (fun a b : ℚ => a ≤ b) l).length = 0 := by
    rw [(List.perm_insertionSort _ l).length_eq]
    exact fun hc => h (List.length_eq_zero.1 hc)
  refine Option.isSome_iff_exists.1 ?_
  simp only [medianQ]
  rw [if_neg h0]
  by_cases hpar : (List.insertionSort (fun a b : ℚ => a ≤ b) l).length % 2 = 1
  · rw [if_pos hpar]
    rfl
  · rw [if_neg hpar]
    rfl

theorem meanQ_isSome {l : List ℚ} (h : l ≠ []) : ∃ v, meanQ l = some v := by
  have h0 : ¬ l.length = 0 := fun hc => h (List.length_eq_zero.1 hc)
  refine Option.isSome_iff_exists.1 ?_
  simp only [meanQ]
  rw [if_neg h0]
  rfl

theorem minCell_mem : ∀ (l : List Cell) (v : Cell), minCell l = some v → v ∈ l := by
  intro l
  induction l with
  | nil =>
      intro v h
      simp [minCell] at h
  | cons x xs ih =>
      intro v h
      rcases hx : minCell xs with _ | b
      · have hv : v = x := by
          simp only [minCell, hx, Option.some_inj] at h
          exact h.symm
        rw [hv]
        exact List.mem_cons_self _ _
      · have hv : v = if cellKey b < cellKey x then b else x := by
          simp only [minCell, hx, Option.some_inj] at h
          exact h.symm
        by_cases hlt : cellKey b < cellKey x
        · rw [hv, if_pos hlt]
          exact List.mem_cons_of_mem _ (ih b hx)
        · rw [hv, if_neg hlt]
          exact List.mem_cons_self _ _

theorem modeCell_mem {l : List Cell} {v : Cell} (h : modeCell l = some v) :
    v ∈ nonNaCells l := by
  have h1 : v ∈ modeCands l := minCell_mem _ v h
  rw [modeCands_eq] at h1
  exact mem_dedupFirst.1 (List.mem_filter.1 h1).1

theorem modeCell_ne_na {l : List Cell} {v : Cell} (h : modeCell l = some v) :
    v ≠ Cell.na := by
  have h1 := modeCell_mem h
  rcases List.mem_filter.1 h1 with ⟨_, hd⟩
  simpa using hd

theorem modeCell_count_ge {l : List Cell} {v : Cell} (h : modeCell l = some v) :
    ∀ w ∈ nonNaCells l, (nonNaCells l).count w ≤ (nonNaCells l).count v := by
  intro w hw
  have h1 : v ∈ modeCands l := minCell_mem _ v h
  rw [modeCands_eq] at h1
  rcases List.mem_filter.1 h1 with ⟨hvd, hvc⟩
  have hvc2 : (nonNaCells l).count v =
      ((dedupFirst (nonNaCells l)).map (fun x => (nonNaCells l).count x)).foldr max 0 := by
    simpa using hvc
  rw [hvc2]
  exact le_foldr_max _ _ (List.mem_map.2 ⟨w, mem_dedupFirst.2 hw, rfl⟩)

end MedianModeLemmas

section FillFoldLemmas

theorem fillStep_cases (m : String) (rs : List Row) (cd : String × Dtype)
    (rs2 : List Row) (h : fillStep m rs cd = some rs2) :
    (missingCount rs cd.1 = 0 ∧ rs2 = rs) ∨
    (0 < missingCount rs cd.1 ∧ isNumericDtype cd.2 = true ∧
      (((if m = "median" then medianQ (colNums rs cd.1) else meanQ (colNums rs cd.1)) = none ∧
          rs2 = rs) ∨
       (∃ v, (if m = "median" then medianQ (colNums rs cd.1)
              else meanQ (colNums rs cd.1)) = some v ∧
         rs2 = rs.map (mapVal cd.1 (fun x => if x = Cell.na then Cell.num v else x))))) ∨
    (0 < missingCount rs cd.1 ∧ isNumericDtype cd.2 = false ∧
      (∃ v, modeCell (colVals rs cd.1) = some v ∧
        rs2 = rs.map (mapVal cd.1 (fun x => if x = Cell.na then v else x)))) := by
  unfold fillStep at h
  by_cases h0 : 0 < missingCount rs cd.1
  · rw [if_pos h0] at h
    by_cases hn : isNumericDtype cd.2 = true
    · rw [if_pos hn] at h
      rcases hmed : (if m = "median" then medianQ (colNums rs cd.1)
          else meanQ (colNums rs cd.1)) with _ | v
      · rw [hmed] at h
        refine Or.inr (Or.inl ⟨h0, hn, Or.inl ⟨rfl, ?_⟩⟩)
        simpa using h.symm
      · rw [hmed] at h
        refine Or.inr (Or.inl ⟨h0, hn, Or.inr ⟨v, rfl, ?_⟩⟩)
        simpa using h.symm
    · rw [if_neg hn] at h
      rcases hmode : modeCell (colVals rs cd.1) with _ | v
      · rw [hmode] at h
        simp at h
      · rw [hmode] at h
        refine Or.inr (Or.inr ⟨h0, Bool.eq_false_iff.2 hn, v, rfl, ?_⟩)
        simpa using h.symm
  · rw [if_neg h0] at h
    refine Or.inl ⟨by omega, ?_⟩
    simpa using h.symm

theorem fillStep_colOpt_ne {m : String} {rs : List Row} {cd : String × Dtype}
    {rs2 : List Row} (h : fillStep m rs cd = some rs2) :
    ∀ c, cd.1 ≠ c → colOpt rs2 c = colOpt rs c := by
  intro c hc
  rcases fillStep_cases m rs cd rs2 h with ⟨_, rfl⟩ | ⟨_, _, hcase⟩ | ⟨_, _, v, _, rfl⟩
  · rfl
  · rcases hcase with ⟨_, rfl⟩ | ⟨v, _, rfl⟩
    · rfl
    · exact colOpt_map_mapVal_ne hc rs _
  · exact colOpt_map_mapVal_ne hc rs _

theorem fillStep_isSome (m : String) (rs : List Row) (cd : String × Dtype)
    (hmode : 0 < missingCount rs cd.1 → isNumericDtype cd.2 = false →
      nonNaCells (colVals rs cd.1) ≠ []) :
    ∃ rs2, fillStep m rs cd = some rs2 := by
  unfold fillStep
  by_cases h0 : 0 < missingCount rs cd.1
  · rw [if_pos h0]
    by_cases hn : isNumericDtype cd.2 = true
    · rw [if_pos hn]
      rcases hmed : (if m = "median" then medianQ (colNums rs cd.1)
          else meanQ (colNums rs cd.1)) with _ | v
      · exact ⟨rs, rfl⟩
      · exact ⟨_, rfl⟩
    · rw [if_neg hn]
      rcases modeCell_isSome (hmode h0 (Bool.eq_false_iff.2 hn)) with ⟨v, hv⟩
      rw [hv]
      exact ⟨_, rfl⟩
  · rw [if_neg h0]
    exact ⟨rs, rfl⟩

theorem fill_fold_isSome (m : String) (hdr : List (String × Dtype)) :
    ∀ (rs : List Row),
    (∀ cd ∈ hdr, 0 < missingCount rs cd.1 → isNumericDtype cd.2 = false →
       nonNaCells (colVals rs cd.1) ≠ []) →
    ∃ out, hdr.foldlM (fillStep m) rs = some out := by
  induction hdr with
  | nil =>
      intro rs _
      exact ⟨rs, rfl⟩
  | cons cd hdr2 ih =>
      intro rs hinv
      rcases fillStep_isSome m rs cd (hinv cd (List.mem_cons_self _ _)) with ⟨rs2, hrs2⟩
      have hinv2 : ∀ cd2 ∈ hdr2, 0 < missingCount rs2 cd2.1 →
          isNumericDtype cd2.2 = false → nonNaCells (colVals rs2 cd2.1) ≠ [] := by
        intro cd2 h2 hpos hdt
        rcases fillStep_cases m rs cd rs2 hrs2 with ⟨_, rfl⟩ | ⟨_, _, hcase⟩ | ⟨_, _, v, hv, hform⟩
        · exact hinv cd2 (List.mem_cons_of_mem _ h2) hpos hdt
        · rcases hcase with ⟨_, rfl⟩ | ⟨v, hv, hform⟩
          · exact hinv cd2 (List.mem_cons_of_mem _ h2) hpos hdt
          · subst hform
            by_cases hcc : cd.1 = cd2.1
            · rw [← hcc] at hpos
              rw [missingCount_fill_self rs cd.1 (by simp)] at hpos
              omega
            · have hco := colOpt_map_mapVal_ne hcc rs
                (fun x => if x = Cell.na then Cell.num v else x)
              rw [missingCount_of_colOpt_eq hco] at hpos
              exact nonNa_fill_preserved
                (hinv cd2 (List.mem_cons_of_mem _ h2) hpos hdt) cd.1
        · subst hform
          by_cases hcc : cd.1 = cd2.1
          · rw [← hcc] at hpos
            rw [missingCount_fill_self rs cd.1 (modeCell_ne_na hv)] at hpos
            omega
          · have hco := colOpt_map_mapVal_ne hcc rs
              (fun x => if x = Cell.na then v else x)
            rw [missingCount_of_colOpt_eq hco] at hpos
            exact nonNa_fill_preserved
              (hinv cd2 (List.mem_cons_of_mem _ h2) hpos hdt) cd.1
      rcases ih rs2 hinv2 with ⟨out, hout⟩
      refine ⟨out, ?_⟩
      rw [List.foldlM_cons, hrs2]
      exact hout

end FillFoldLemmas

section HandleMissingLemmas

theorem handle_missing_eq (t : Table) (q : ℚ) (m : String) :
    handle_missing t q m =
      ((keptHeader t q).foldlM (fillStep m) (keptRows t q)).map
        (fun rs => ⟨keptHeader t q, rs⟩) := rfl

theorem handle_missing_some {t : Table} {q : ℚ} {m : String} {out : Table}
    (h : handle_missing t q m = some out) :
    out.header = keptHeader t q ∧
    (keptHeader t q).foldlM (fillStep m) (keptRows t q) = some out.rows := by
  rw [handle_missing_eq] at h
  rcases Option.map_eq_some'.1 h with ⟨rs, hfold, hout⟩
  rw [← hout]
  exact ⟨rfl, hfold⟩

theorem mem_colNames_keptHeader {t : Table} {q : ℚ} {c : String} :
    (c ∈ (keptHeader t q).map Prod.fst) ↔
      (c ∈ colNames t ∧ ¬ ((missingCount t.rows c : ℚ) > q * t.rows.length)) := by
  unfold keptHeader colNames
  constructor
  · intro h
    rcases List.mem_map.1 h with ⟨cd, hcd, rfl⟩
    rcases List.mem_filter.1 hcd with ⟨hmem, hkeep⟩
    refine ⟨List.mem_map.2 ⟨cd, hmem, rfl⟩, ?_⟩
    unfold dropPred at hkeep
    simpa using hkeep
  · rintro ⟨h1, h2⟩
    rcases List.mem_map.1 h1 with ⟨cd, hcd, rfl⟩
    refine List.mem_map.2 ⟨cd, List.mem_filter.2 ⟨hcd, ?_⟩, rfl⟩
    unfold dropPred
    simpa using h2

theorem mem_droppedNames {t : Table} {q : ℚ} {c : String} :
    c ∈ droppedNames t q ↔
      (c ∈ colNames t ∧ (missingCount t.rows c : ℚ) > q * t.rows.length) := by
  unfold droppedNames colNames
  constructor
  · intro h
    rcases List.mem_map.1 h with ⟨cd, hcd, rfl⟩
    rcases List.mem_filter.1 hcd with ⟨hmem, hdrop⟩
    refine ⟨List.mem_map.2 ⟨cd, hmem, rfl⟩, ?_⟩
    unfold dropPred at hdrop
    simpa using hdrop
  · rintro ⟨h1, h2⟩
    rcases List.mem_map.1 h1 with ⟨cd, hcd, rfl⟩
    refine List.mem_map.2 ⟨cd, List.mem_filter.2 ⟨hcd, ?_⟩, rfl⟩
    unfold dropPred
    simpa using h2

theorem colOpt_keptRows_not_dropped {t : Table} {q : ℚ} {c : String}
    (h : c ∉ droppedNames t q) : colOpt (keptRows t q) c = colOpt t.rows c := by
  unfold keptRows colOpt
  rw [List.map_map]
  refine List.map_congr_left (fun r hr => ?_)
  have := alook_filter_keys c (fun k => ! decide (k ∈ droppedNames t q)) r
  simpa [h] using this

theorem colOpt_keptRows_dropped {t : Table} {q : ℚ} {c : String}
    (h : c ∈ droppedNames t q) :
    colOpt (keptRows t q) c = t.rows.map (fun _ => none) := by
  unfold keptRows colOpt
  rw [List.map_map]
  refine List.map_congr_left (fun r hr => ?_)
  have := alook_filter_keys c (fun k => ! decide (k ∈ droppedNames t q)) r
  simpa [h] using this

theorem missingCount_keptRows_dropped {t : Table} {q : ℚ} {c : String}
    (h : c ∈ droppedNames t q) : missingCount (keptRows t q) c = 0 := by
  rw [missingCount_eq_countP_colOpt, colOpt_keptRows_dropped h]
  rw [List.countP_map]
  refine List.countP_eq_zero.2 (fun r hr => ?_)
  simp

end HandleMissingLemmas

section FillFoldDesc

theorem colNums_of_colOpt_eq {rs1 rs2 : List Row} {c : String}
    (h : colOpt rs1 c = colOpt rs2 c) : colNums rs1 c = colNums rs2 c := by
  unfold colNums
  rw [colVals_of_colOpt_eq h]

theorem fill_fold_desc (m : String) (hdr : List (String × Dtype)) :
    ∀ (rs out : List Row), (hdr.map Prod.fst).Nodup →
    hdr.foldlM (fillStep m) rs = some out →
    ((∀ c, c ∉ hdr.map Prod.fst → colOpt out c = colOpt rs c) ∧
     ∀ cd ∈ hdr,
       (missingCount rs cd.1 = 0 → colOpt out cd.1 = colOpt rs cd.1) ∧
       (0 < missingCount rs cd.1 → isNumericDtype cd.2 = true →
         ∀ v, (if m = "median" then medianQ (colNums rs cd.1)
               else meanQ (colNums rs cd.1)) = some v →
           colOpt out cd.1 = (colOpt rs cd.1).map
             (Option.map (fun x => if x = Cell.na then Cell.num v else x))) ∧
       (0 < missingCount rs cd.1 → isNumericDtype cd.2 = true →
         (if m = "median" then medianQ (colNums rs cd.1)
          else meanQ (colNums rs cd.1)) = none →
           colOpt out cd.1 = colOpt rs cd.1) ∧
       (0 < missingCount rs cd.1 → isNumericDtype cd.2 = false →
         ∃ v, modeCell (colVals rs cd.1) = some v ∧
           colOpt out cd.1 = (colOpt rs cd.1).map
             (Option.map (fun x => if x = Cell.na then v else x)))) := by
  induction hdr with
  | nil =>
      intro rs out _ hfold
      have hout : rs = out := by simpa using hfold
      subst hout
      exact ⟨fun c _ => rfl, fun cd hcd => absurd hcd (List.not_mem_nil cd)⟩
  | cons cd hdr2 ih =>
      intro rs out hnd hfold
      rw [List.foldlM_cons] at hfold
      rcases hstep : fillStep m rs cd with _ | rs1
      · rw [hstep] at hfold
        simp at hfold
      · rw [hstep] at hfold
        simp only [Option.bind_eq_bind, Option.some_bind] at hfold
        simp only [List.map_cons, List.nodup_cons] at hnd
        rcases hnd with ⟨hcd1, hnd2⟩
        rcases ih rs1 out hnd2 hfold with ⟨huntouched, hdesc⟩
        have hhead_out : colOpt out cd.1 = colOpt rs1 cd.1 := huntouched cd.1 hcd1
        refine ⟨?_, ?_⟩
        · intro c hc
          simp only [List.map_cons, List.mem_cons, not_or] at hc
          rw [huntouched c hc.2]
          exact fillStep_colOpt_ne hstep c (fun he => hc.1 he.symm)
        · intro cd2 hcd2
          rcases List.mem_cons.1 hcd2 with rfl | htail
          · -- the head column
            refine ⟨?_, ?_, ?_, ?_⟩
            · intro h0
              rcases fillStep_cases m rs cd2 rs1 hstep with ⟨_, rfl⟩ | ⟨hp, _, _⟩ | ⟨hp, _, _⟩
              · exact hhead_out
              · omega
              · omega
            · intro hp hn v hv
              rcases fillStep_cases m rs cd2 rs1 hstep with ⟨h0, _⟩ | ⟨_, _, hcase⟩ | ⟨_, hn2, _⟩
              · omega
              · rcases hcase with ⟨hnone, _⟩ | ⟨v2, hv2, hform⟩
                · rw [hv] at hnone
                  exact absurd hnone (Option.some_ne_none v)
                · rw [hv] at hv2
                  have hvv : v2 = v := by
                    injection hv2.symm
                  subst hvv
                  subst hform
                  rw [hhead_out, colOpt_map_mapVal_self]
              · rw [hn] at hn2
                exact absurd hn2 (by simp)
            · intro hp hn hnone
              rcases fillStep_cases m rs cd2 rs1 hstep with ⟨h0, _⟩ | ⟨_, _, hcase⟩ | ⟨_, hn2, _⟩
              · omega
              · rcases hcase with ⟨_, rfl⟩ | ⟨v2, hv2, hform⟩
                · exact hhead_out
                · rw [hnone] at hv2
                  exact absurd hv2.symm (Option.some_ne_none v2)
              · rw [hn] at hn2
                exact absurd hn2 (by simp)
            · intro hp hn
              rcases fillStep_cases m rs cd2 rs1 hstep with ⟨h0, _⟩ | ⟨_, hn2, _⟩ | ⟨_, _, v, hv, hform⟩
              · omega
              · rw [hn] at hn2
                exact absurd hn2 (by simp)
              · subst hform
                refine ⟨v, hv, ?_⟩
                rw [hhead_out, colOpt_map_mapVal_self]
          · -- a column further down the header
            have hne : cd.1 ≠ cd2.1 := by
              intro he
              exact hcd1 (he ▸ List.mem_map.2 ⟨cd2, htail, rfl⟩)
            have hco : colOpt rs1 cd2.1 = colOpt rs cd2.1 := fillStep_colOpt_ne hstep cd2.1 hne
            have hmc : missingCount rs1 cd2.1 = missingCount rs cd2.1 :=
              missingCount_of_colOpt_eq hco
            have hcv : colVals rs1 cd2.1 = colVals rs cd2.1 := colVals_of_colOpt_eq hco
            have hcn : colNums rs1 cd2.1 = colNums rs cd2.1 := colNums_of_colOpt_eq hco
            rcases hdesc cd2 htail with ⟨hA, hB, hC, hD⟩
            refine ⟨?_, ?_, ?_, ?_⟩
            · intro h0
              rw [hA (by rw [hmc]; exact h0), hco]
            · intro hp hn v hv
              rw [hB (by rw [hmc]; exact hp) hn v (by rw [hcn]; exact hv), hco]
            · intro hp hn hnone
              rw [hC (by rw [hmc]; exact hp) hn (by rw [hcn]; exact hnone), hco]
            · intro hp hn
              rcases hD (by rw [hmc]; exact hp) hn with ⟨v, hv, hout2⟩
              refine ⟨v, by rw [← hcv]; exact hv, ?_⟩
              rw [hout2, hco]

end FillFoldDesc

section FillFoldMore

theorem missing_zero_of_colOpt_fill {out rs : List Row} {c : String} {v : Cell}
    (hv : v ≠ Cell.na)
    (h : colOpt out c = (colOpt rs c).map (Option.map (fun x => if x = Cell.na then v else x))) :
    missingCount out c = 0 := by
  rw [missingCount_eq_countP_colOpt, h, List.countP_map]
  refine List.countP_eq_zero.2 (fun oc hoc => ?_)
  rcases oc with _ | x
  · simp
  · by_cases hx : x = Cell.na <;> simp [hx, hv]

theorem fill_fold_no_missing (m : String) (hdr : List (String × Dtype))
    (rs out : List Row) (hnd : (hdr.map Prod.fst).Nodup)
    (hfold : hdr.foldlM (fillStep m) rs = some out)
    (hnum : ∀ cd ∈ hdr, 0 < missingCount rs cd.1 → isNumericDtype cd.2 = true →
      colNums rs cd.1 ≠ []) :
    ∀ cd ∈ hdr, missingCount out cd.1 = 0 := by
  intro cd hcd
  rcases fill_fold_desc m hdr rs out hnd hfold with ⟨_, hdesc⟩
  rcases hdesc cd hcd with ⟨hA, hB, hC, hD⟩
  by_cases h0 : missingCount rs cd.1 = 0
  · rw [missingCount_of_colOpt_eq (hA h0)]
    exact h0
  · have hp : 0 < missingCount rs cd.1 := Nat.pos_of_ne_zero h0
    by_cases hn : isNumericDtype cd.2 = true
    · have hnn : colNums rs cd.1 ≠ [] := hnum cd hcd hp hn
      have hsome : ∃ v, (if m = "median" then medianQ (colNums rs cd.1)
          else meanQ (colNums rs cd.1)) = some v := by
        by_cases hm : m = "median"
        · rw [if_pos hm]
          exact medianQ_isSome hnn
        · rw [if_neg hm]
          exact meanQ_isSome hnn
      rcases hsome with ⟨v, hv⟩
      exact missing_zero_of_colOpt_fill (by simp) (hB hp hn v hv)
    · rcases hD hp (Bool.eq_false_iff.2 hn) with ⟨v, hv, hco⟩
      exact missing_zero_of_colOpt_fill (modeCell_ne_na hv) hco

theorem mapVal_keys {κ β : Type} [DecidableEq κ] (k : κ) (f : β → β)
    (r : List (κ × β)) : (mapVal k f r).map Prod.fst = r.map Prod.fst := by
  unfold mapVal
  rw [List.map_map]
  refine List.map_congr_left (fun kv hkv => ?_)
  by_cases h : kv.1 = k <;> simp [h]

theorem fillStep_keys {m : String} {rs rs2 : List Row} {cd : String × Dtype}
    (h : fillStep m rs cd = some rs2) :
    rs2.map (List.map Prod.fst) = rs.map (List.map Prod.fst) := by
  rcases fillStep_cases m rs cd rs2 h with ⟨_, rfl⟩ | ⟨_, _, hcase⟩ | ⟨_, _, v, _, rfl⟩
  · rfl
  · rcases hcase with ⟨_, rfl⟩ | ⟨v, _, rfl⟩
    · rfl
    · rw [List.map_map]
      exact List.map_congr_left (fun r hr => mapVal_keys _ _ r)
  · rw [List.map_map]
    exact List.map_congr_left (fun r hr => mapVal_keys _ _ r)

theorem fill_fold_keys (m : String) (hdr : List (String × Dtype)) :
    ∀ (rs out : List Row), hdr.foldlM (fillStep m) rs = some out →
    out.map (List.map Prod.fst) = rs.map (List.map Prod.fst) := by
  induction hdr with
  | nil =>
      intro rs out hfold
      have h : rs = out := by simpa using hfold
      rw [h]
  | cons cd hdr2 ih =>
      intro rs out hfold
      rw [List.foldlM_cons] at hfold
      rcases hstep : fillStep m rs cd with _ | rs1
      · rw [hstep] at hfold
        simp at hfold
      · rw [hstep] at hfold
        simp only [Option.bind_eq_bind, Option.some_bind] at hfold
        rw [ih rs1 out hfold, fillStep_keys hstep]

theorem filter_map_fst {κ β : Type} (p : κ → Bool) (r : List (κ × β)) :
    (r.filter (fun kv => p kv.1)).map Prod.fst = (r.map Prod.fst).filter p := by
  induction r with
  | nil => rfl
  | cons kv rest ih =>
      by_cases h : p kv.1 <;> simp [List.filter_cons, h, ih]

theorem keptRows_keys {t : Table} {q : ℚ} (hwf : wfTable t) :
    ∀ r ∈ keptRows t q, r.map Prod.fst = (keptHeader t q).map Prod.fst := by
  intro r1 hr1
  unfold keptRows at hr1
  rcases List.mem_map.1 hr1 with ⟨r, hr, rfl⟩
  rw [filter_map_fst (fun k => ! decide (k ∈ droppedNames t q)) r, hwf r hr]
  unfold keptHeader colNames
  have h1 : (t.header.filter (fun cd => ! dropPred t q cd)).map Prod.fst =
      (t.header.map Prod.fst).filter (fun c => ! decide ((missingCount t.rows c : ℚ) > q * t.rows.length)) := by
    have h2 : t.header.filter (fun cd => ! dropPred t q cd) =
        t.header.filter (fun cd => (fun c => ! decide ((missingCount t.rows c : ℚ) > q * t.rows.length)) cd.1) := by
      refine List.filter_congr (fun cd hcd => ?_)
      unfold dropPred
      rfl
    rw [h2, filter_map_fst (fun c => ! decide ((missingCount t.rows c : ℚ) > q * t.rows.length)) t.header]
  rw [h1]
  refine List.filter_congr (fun c hc => ?_)
  have : c ∈ droppedNames t q ↔ (missingCount t.rows c : ℚ) > q * t.rows.length := by
    rw [mem_droppedNames]
    unfold colNames
    constructor
    · exact fun h => h.2
    · exact fun h => ⟨hc, h⟩
  by_cases hd : c ∈ droppedNames t q
  · simp [hd, this.1 hd]
  · have : ¬ ((missingCount t.rows c : ℚ) > q * t.rows.length) := fun hgt => hd (this.2 hgt)
    simp [hd, this]

end FillFoldMore

section HandleMissingMain

theorem alook_isSome_of_mem_keys {κ β : Type} [DecidableEq κ] {k : κ}
    {r : List (κ × β)} (h : k ∈ r.map Prod.fst) : ∃ v, alook k r = some v := by
  rcases halook : alook k r with _ | v
  · exact absurd h (alook_eq_none_iff.1 halook)
  · exact ⟨v, rfl⟩

theorem missingCount_le_length (rs : List Row) (c : String) :
    missingCount rs c ≤ rs.length := List.countP_le_length _

theorem missing_lt_length_of_kept {t : Table} {q : ℚ} {cd : String × Dtype}
    (hq : q < 1) (hcd : cd ∈ keptHeader t q) (hpos : 0 < missingCount t.rows cd.1) :
    missingCount t.rows cd.1 < t.rows.length := by
  have hkeep : ¬ ((missingCount t.rows cd.1 : ℚ) > q * t.rows.length) := by
    rcases List.mem_filter.1 hcd with ⟨_, hk⟩
    unfold dropPred at hk
    simpa using hk
  have hlen : 0 < t.rows.length := by
    by_contra hl
    have h0 : t.rows.length = 0 := by omega
    have := missingCount_le_length t.rows cd.1
    omega
  have hle : (missingCount t.rows cd.1 : ℚ) ≤ q * t.rows.length := not_lt.1 hkeep
  have h2 : q * (t.rows.length : ℚ) < 1 * t.rows.length := by
    refine mul_lt_mul_of_pos_right hq ?_
    exact_mod_cast hlen
  rw [one_mul] at h2
  have hlt : (missingCount t.rows cd.1 : ℚ) < t.rows.length := lt_of_le_of_lt hle h2
  exact_mod_cast hlt

theorem exists_non_na_row {t : Table} {c : String}
    (hlt : missingCount t.rows c < t.rows.length) :
    ∃ r ∈ t.rows, ¬ (alook c r = some Cell.na) := by
  by_contra hall
  push_neg at hall
  have : missingCount t.rows c = t.rows.length := by
    unfold missingCount
    refine List.countP_eq_length.2 (fun r hr => ?_)
    simpa using hall r hr
  omega

theorem handle_missing_isSome {t : Table} {q : ℚ} (m : String)
    (hwf : wfTable t) (hq : q < 1) : ∃ out, handle_missing t q m = some out := by
  rw [handle_missing_eq]
  have h : ∃ rs, (keptHeader t q).foldlM (fillStep m) (keptRows t q) = some rs := by
    refine fill_fold_isSome m _ _ ?_
    intro cd hcd hpos hdt
    by_cases hdrop : cd.1 ∈ droppedNames t q
    · rw [missingCount_keptRows_dropped hdrop] at hpos
      omega
    · have hco := colOpt_keptRows_not_dropped (t := t) (q := q) hdrop
      rw [missingCount_of_colOpt_eq hco] at hpos
      rw [colVals_of_colOpt_eq hco]
      have hlt := missing_lt_length_of_kept hq hcd hpos
      rcases exists_non_na_row hlt with ⟨r, hr, hna⟩
      have hkey : cd.1 ∈ r.map Prod.fst := by
        rw [hwf r hr]
        unfold colNames
        exact List.mem_map.2 ⟨cd, List.mem_filter.1 hcd |>.1, rfl⟩
      rcases alook_isSome_of_mem_keys hkey with ⟨x, halook⟩
      have hxna : x ≠ Cell.na := fun he => hna (by rw [halook, he])
      refine List.ne_nil_of_mem (a := x) (List.mem_filter.2 ⟨?_, by simpa using hxna⟩)
      exact List.mem_filterMap.2 ⟨r, hr, halook⟩
  rcases h with ⟨rs, hrs⟩
  exact ⟨_, by rw [hrs]; rfl⟩

theorem keptHeader_names_nodup {t : Table} {q : ℚ} (hnd : (colNames t).Nodup) :
    ((keptHeader t q).map Prod.fst).Nodup := by
  have hsub : List.Sublist ((keptHeader t q).map Prod.fst) (t.header.map Prod.fst) :=
    (List.filter_sublist t.header).map Prod.fst
  exact List.Nodup.sublist hsub hnd

theorem kept_colNums_ne_nil {t : Table} {q : ℚ} {cd : String × Dtype}
    (hwf : wfTable t) (hcells : wfCells t) (hq : q < 1)
    (hcd : cd ∈ keptHeader t q) (hpos : 0 < missingCount (keptRows t q) cd.1)
    (hn : isNumericDtype cd.2 = true) : colNums (keptRows t q) cd.1 ≠ [] := by
  by_cases hdrop : cd.1 ∈ droppedNames t q
  · rw [missingCount_keptRows_dropped hdrop] at hpos
    omega
  · have hco := colOpt_keptRows_not_dropped (t := t) (q := q) hdrop
    rw [missingCount_of_colOpt_eq hco] at hpos
    rw [colNums_of_colOpt_eq hco]
    have hlt := missing_lt_length_of_kept hq hcd hpos
    rcases exists_non_na_row hlt with ⟨r, hr, hna⟩
    have hmem : cd ∈ t.header := (List.mem_filter.1 hcd).1
    have hkey : cd.1 ∈ r.map Prod.fst := by
      rw [hwf r hr]
      unfold colNames
      exact List.mem_map.2 ⟨cd, hmem, rfl⟩
    rcases alook_isSome_of_mem_keys hkey with ⟨x, halook⟩
    have hxna : x ≠ Cell.na := fun he => hna (by rw [halook, he])
    have hok := hcells r hr cd hmem x halook
    rcases x with _ | xq | xs
    · exact absurd rfl hxna
    · refine List.ne_nil_of_mem (a := xq) ?_
      unfold colNums
      refine List.mem_filterMap.2 ⟨Cell.num xq, ?_, rfl⟩
      exact List.mem_filterMap.2 ⟨r, hr, halook⟩
    · unfold cellNumericOK at hok
      rw [hn] at hok
      simp at hok

theorem handle_missing_no_na {t : Table} {q : ℚ} {m : String} {out : Table}
    (hwf : wfTable t) (hcells : wfCells t) (hnd : (colNames t).Nodup) (hq : q < 1)
    (hout : handle_missing t q m = some out) :
    ∀ r ∈ out.rows, ∀ kv ∈ r, kv.2 ≠ Cell.na := by
  rcases handle_missing_some hout with ⟨hhdr, hfold⟩
  have hkeys : ∀ r ∈ out.rows, r.map Prod.fst = (keptHeader t q).map Prod.fst := by
    intro r hr
    have h1 : out.rows.map (List.map Prod.fst) = (keptRows t q).map (List.map Prod.fst) :=
      fill_fold_keys m _ _ _ hfold
    have h2 : r.map Prod.fst ∈ (keptRows t q).map (List.map Prod.fst) := by
      rw [← h1]
      exact List.mem_map.2 ⟨r, hr, rfl⟩
    rcases List.mem_map.1 h2 with ⟨r1, hr1, heq⟩
    rw [← heq]
    exact keptRows_keys hwf r1 hr1
  have hndk : ((keptHeader t q).map Prod.fst).Nodup := keptHeader_names_nodup hnd
  have hzero : ∀ cd ∈ keptHeader t q, missingCount out.rows cd.1 = 0 := by
    refine fill_fold_no_missing m _ _ _ hndk hfold ?_
    intro cd hcd hpos hn
    exact kept_colNums_ne_nil hwf hcells hq hcd hpos hn
  intro r hr kv hkv
  have hk : kv.1 ∈ r.map Prod.fst := List.mem_map.2 ⟨kv, hkv, rfl⟩
  rw [hkeys r hr] at hk
  rcases List.mem_map.1 hk with ⟨cd, hcd, hcdk⟩
  have hrnd : (r.map Prod.fst).Nodup := by
    rw [hkeys r hr]
    exact hndk
  have halook : alook kv.1 r = some kv.2 := by
    have : (kv.1, kv.2) ∈ r := by
      rcases kv with ⟨k, c⟩
      exact hkv
    exact alook_of_mem_nodup hrnd this
  intro hna
  have hz := hzero cd hcd
  rw [missingCount_eq_countP_colOpt] at hz
  have hcon : alook cd.1 r = some Cell.na := by
    rw [hcdk, halook, hna]
  have hmem2 : (some Cell.na) ∈ colOpt out.rows cd.1 := by
    unfold colOpt
    exact List.mem_map.2 ⟨r, hr, hcon⟩
  have := List.countP_eq_zero.1 hz _ hmem2
  simp at this

end HandleMissingMain

section DedupSublist

theorem dedupFirstAux_sublist {α : Type} [DecidableEq α] (l : List α) :
    ∀ (seen : List α), List.Sublist (dedupFirstAux seen l) l := by
  induction l with
  | nil =>
      intro seen
      exact List.nil_sublist _
  | cons y ys ih =>
      intro seen
      simp only [dedupFirstAux]
      by_cases h : y ∈ seen
      · rw [if_pos h]
        exact (ih seen).cons y
      · rw [if_neg h]
        exact (ih (y :: seen)).cons₂ y

theorem dedupFirst_sublist {α : Type} [DecidableEq α] (l : List α) :
    List.Sublist (dedupFirst l) l := dedupFirstAux_sublist l []

end DedupSublist

/-- C5: `remove_duplicates` keeps exactly one copy of each distinct row — the
first occurrence, as the head-recursion equation states — so its output length
is the number of distinct rows, and running it again is a no-op. -/
theorem C5_remove_duplicates (t : Table) :
    (remove_duplicates t).rows.length = t.rows.toFinset.card ∧
    remove_duplicates (remove_duplicates t) = remove_duplicates t ∧
    (remove_duplicates t).rows.Nodup ∧
    (∀ r, r ∈ (remove_duplicates t).rows ↔ r ∈ t.rows) ∧
    List.Sublist (remove_duplicates t).rows t.rows ∧
    (∀ (x : Row) (xs : List Row),
       (remove_duplicates ⟨t.header, x :: xs⟩).rows =
         x :: (remove_duplicates ⟨t.header, xs.filter (fun y => decide (y ≠ x))⟩).rows) := by
  refine ⟨length_dedupFirst t.rows, ?_, nodup_dedupFirst t.rows,
    fun r => mem_dedupFirst, dedupFirst_sublist t.rows, ?_⟩
  · show (⟨t.header, dedupFirst (dedupFirst t.rows)⟩ : Table) = ⟨t.header, dedupFirst t.rows⟩
    rw [dedupFirst_idem]
  · intro x xs
    exact dedupFirst_cons x xs

section C10Helpers

theorem hm_exAllNaObj_none (q : ℚ) (hq : 1 ≤ q) :
    handle_missing exAllNaObj q "median" = none := by
  have hle : ((missingCount [[("c", Cell.na)]] "c" : ℚ)) ≤ q := by
    have h1 : missingCount [[("c", Cell.na)]] "c" = 1 := by decide
    rw [h1]
    exact_mod_cast hq
  have hk : keptHeader exAllNaObj q = [("c", Dtype.obj)] := by
    unfold keptHeader dropPred
    simp only [exAllNaObj, List.filter_cons]
    simp [hle]
  have hd : droppedNames exAllNaObj q = [] := by
    unfold droppedNames dropPred
    simp only [exAllNaObj, List.filter_cons]
    simp [hle]
  have hr : keptRows exAllNaObj q = [[("c", Cell.na)]] := by
    unfold keptRows
    rw [hd]
    simp [exAllNaObj]
  rw [handle_missing_eq, hk, hr]
  rfl

end C10Helpers

/-- C10: with a missing threshold below 1, any fully missing column has a
missing ratio above the threshold and is dropped, so the mode-fill branch
never sees a column with no non-missing entry and `handle_missing` never
fails; with a threshold of 1 or more, a fully missing non-numeric column is
retained and `mode()[0]` fails on it. -/
theorem C10_handle_missing_mode_safety :
    (∀ (t : Table) (q : ℚ) (m : String), wfTable t → q < 1 →
       ∃ out, handle_missing t q m = some out) ∧
    (∀ (t : Table) (q : ℚ) (m : String) (out : Table), q < 1 → 0 < t.rows.length →
       handle_missing t q m = some out →
       ∀ cd ∈ t.header, missingCount t.rows cd.1 = t.rows.length →
         cd.1 ∉ colNames out) ∧
    (∀ q : ℚ, 1 ≤ q → handle_missing exAllNaObj q "median" = none) := by
  refine ⟨fun t q m hwf hq => handle_missing_isSome m hwf hq, ?_, hm_exAllNaObj_none⟩
  intro t q m out hq hlen hout cd hcd hfull
  rcases handle_missing_some hout with ⟨hhdr, _⟩
  intro hmem
  unfold colNames at hmem
  rw [hhdr] at hmem
  rcases mem_colNames_keptHeader.1 hmem with ⟨_, hkeep⟩
  rw [hfull] at hkeep
  have h2 : q * (t.rows.length : ℚ) < 1 * t.rows.length := by
    refine mul_lt_mul_of_pos_right hq ?_
    exact_mod_cast hlen
  rw [one_mul] at h2
  exact hkeep h2

/-- C10 witness: a well-formed fixture succeeds at the default threshold, and
the fully missing non-numeric column fails at threshold 1. -/
theorem C10_witness :
    (∃ out, handle_missing exHM (1 / 2) "median" = some out) ∧
    handle_missing exAllNaObj 1 "median" = none :=
  ⟨C10_handle_missing_mode_safety.1 exHM (1 / 2) "median" (by unfold wfTable; decide) (by norm_num),
   C10_handle_missing_mode_safety.2.2 1 (by norm_num)⟩

/-- C3 counterexample: with threshold 1 (the claim quantifies over every
threshold), a fully missing numeric column has missing ratio 1, which does not
strictly exceed 1, so it is retained; its median over no data is NaN and the
fill is a no-op, so a retained column of the output still has a missing value,
contradicting the claim's zero-missing conjunct. -/
theorem C3_counterexample :
    handle_missing exAllNaNum 1 "median" = some exAllNaNum ∧
    "x" ∈ colNames exAllNaNum ∧
    missingCount exAllNaNum.rows "x" ≠ 0 := by
  have hle : missingCount [[("x", Cell.na)]] "x" ≤ 1 := by decide
  have hk : keptHeader exAllNaNum 1 = [("x", Dtype.float64)] := by
    unfold keptHeader dropPred
    simp only [exAllNaNum, List.filter_cons]
    simp [hle]
  have hd : droppedNames exAllNaNum 1 = [] := by
    unfold droppedNames dropPred
    simp only [exAllNaNum, List.filter_cons]
    simp [hle]
  have hr : keptRows exAllNaNum 1 = [[("x", Cell.na)]] := by
    unfold keptRows
    rw [hd]
    simp [exAllNaNum]
  refine ⟨?_, by decide, by decide⟩
  rw [handle_missing_eq, hk, hr]
  rfl

/-- C3 (amended): for thresholds strictly below 1 and a well-formed frame,
`handle_missing` drops exactly the columns whose missing count exceeds
`threshold * rows` (ratio strictly above the threshold; equality retained),
every column of the output has zero missing values, numeric columns are filled
with their median (selector "median") or mean (any other selector, per the
source's equality test) over the non-missing entries, and non-numeric columns
are filled with `mode()[0]` — a most frequent non-missing value, the least
such value on ties. -/
theorem C3_handle_missing (t : Table) (q : ℚ) (m : String) (out : Table)
    (hq : q < 1) (hwf : wfTable t) (hcells : wfCells t)
    (hnd : (colNames t).Nodup)
    (hout : handle_missing t q m = some out) :
    (∀ c, c ∈ colNames out ↔
       (c ∈ colNames t ∧ ¬ ((missingCount t.rows c : ℚ) > q * t.rows.length))) ∧
    (0 < t.rows.length → ∀ c, c ∈ colNames out ↔
       (c ∈ colNames t ∧ (missingCount t.rows c : ℚ) / t.rows.length ≤ q)) ∧
    (∀ r ∈ out.rows, ∀ kv ∈ r, kv.2 ≠ Cell.na) ∧
    (∀ cd ∈ out.header,
      (0 < missingCount t.rows cd.1 → isNumericDtype cd.2 = true →
        ∃ v, (if m = "median" then medianQ (colNums t.rows cd.1)
              else meanQ (colNums t.rows cd.1)) = some v ∧
          colOpt out.rows cd.1 = (colOpt t.rows cd.1).map
            (Option.map (fun x => if x = Cell.na then Cell.num v else x))) ∧
      (0 < missingCount t.rows cd.1 → isNumericDtype cd.2 = false →
        ∃ v, modeCell (colVals t.rows cd.1) = some v ∧
          v ∈ nonNaCells (colVals t.rows cd.1) ∧
          (∀ w ∈ nonNaCells (colVals t.rows cd.1),
             (nonNaCells (colVals t.rows cd.1)).count w ≤
               (nonNaCells (colVals t.rows cd.1)).count v) ∧
          colOpt out.rows cd.1 = (colOpt t.rows cd.1).map
            (Option.map (fun x => if x = Cell.na then v else x))) ∧
      (missingCount t.rows cd.1 = 0 → colOpt out.rows cd.1 = colOpt t.rows cd.1)) := by
  rcases handle_missing_some hout with ⟨hhdr, hfold⟩
  have hndk : ((keptHeader t q).map Prod.fst).Nodup := keptHeader_names_nodup hnd
  have hnames : colNames out = (keptHeader t q).map Prod.fst := by
    unfold colNames
    rw [hhdr]
  refine ⟨?_, ?_, handle_missing_no_na hwf hcells hnd hq hout, ?_⟩
  · intro c
    rw [hnames]
    exact mem_colNames_keptHeader
  · intro hlen c
    rw [hnames, mem_colNames_keptHeader]
    have hlq : (0 : ℚ) < t.rows.length := by exact_mod_cast hlen
    constructor
    · rintro ⟨h1, h2⟩
      refine ⟨h1, ?_⟩
      rw [div_le_iff₀ hlq]
      exact not_lt.1 h2
    · rintro ⟨h1, h2⟩
      refine ⟨h1, not_lt.2 ?_⟩
      rw [← div_le_iff₀ hlq]
      exact h2
  · intro cd hcd
    rw [hhdr] at hcd
    have hkeep : ¬ ((missingCount t.rows cd.1 : ℚ) > q * t.rows.length) := by
      rcases List.mem_filter.1 hcd with ⟨_, hk⟩
      unfold dropPred at hk
      simpa using hk
    have hdrop : cd.1 ∉ droppedNames t q := by
      intro hc
      exact hkeep (mem_droppedNames.1 hc).2
    have hco : colOpt (keptRows t q) cd.1 = colOpt t.rows cd.1 :=
      colOpt_keptRows_not_dropped hdrop
    have hmc : missingCount (keptRows t q) cd.1 = missingCount t.rows cd.1 :=
      missingCount_of_colOpt_eq hco
    have hcv : colVals (keptRows t q) cd.1 = colVals t.rows cd.1 :=
      colVals_of_colOpt_eq hco
    have hcn : colNums (keptRows t q) cd.1 = colNums t.rows cd.1 :=
      colNums_of_colOpt_eq hco
    rcases (fill_fold_desc m _ _ _ hndk hfold).2 cd hcd with ⟨hA, hB, hC, hD⟩
    refine ⟨?_, ?_, ?_⟩
    · intro hp hn
      have hnn : colNums (keptRows t q) cd.1 ≠ [] := by
        refine kept_colNums_ne_nil hwf hcells hq hcd ?_ hn
        rw [hmc]
        exact hp
      have hsome : ∃ v, (if m = "median" then medianQ (colNums (keptRows t q) cd.1)
          else meanQ (colNums (keptRows t q) cd.1)) = some v := by
        by_cases hm : m = "median"
        · rw [if_pos hm]
          exact medianQ_isSome hnn
        · rw [if_neg hm]
          exact meanQ_isSome hnn
      rcases hsome with ⟨v, hv⟩
      refine ⟨v, by rw [← hcn]; exact hv, ?_⟩
      have := hB (by rw [hmc]; exact hp) hn v hv
      rw [this, hco]
    · intro hp hn
      rcases hD (by rw [hmc]; exact hp) hn with ⟨v, hv, hout2⟩
      rw [hcv] at hv
      refine ⟨v, hv, modeCell_mem hv, modeCell_count_ge hv, ?_⟩
      rw [hout2, hco]
    · intro h0
      rw [hA (by rw [hmc]; exact h0), hco]

/-- C3 witness helper: the fixture's concrete output, established through the
drop/fill lemmas (the rational drop test is proved, the rest evaluates). -/
theorem hm_exHM_eq : handle_missing exHM (1 / 2) "median" = some exHMout := by
  have ha : missingCount exHM.rows "a" = 1 := by decide
  have hb : missingCount exHM.rows "b" = 1 := by decide
  have hs : missingCount exHM.rows "s" = 3 := by decide
  have hlen : exHM.rows.length = 4 := rfl
  have hna : ¬ ((missingCount exHM.rows "a" : ℚ) > (1 / 2) * exHM.rows.length) := by
    rw [ha, hlen]
    norm_num
  have hnb : ¬ ((missingCount exHM.rows "b" : ℚ) > (1 / 2) * exHM.rows.length) := by
    rw [hb, hlen]
    norm_num
  have hds : ((missingCount exHM.rows "s" : ℚ) > (1 / 2) * exHM.rows.length) := by
    rw [hs, hlen]
    norm_num
  have hdpa : dropPred exHM (1 / 2) ("a", Dtype.float64) = false := by
    unfold dropPred
    exact decide_eq_false hna
  have hdpb : dropPred exHM (1 / 2) ("b", Dtype.obj) = false := by
    unfold dropPred
    exact decide_eq_false hnb
  have hdps : dropPred exHM (1 / 2) ("s", Dtype.float64) = true := by
    unfold dropPred
    exact decide_eq_true hds
  have hk : keptHeader exHM (1 / 2) = [("a", Dtype.float64), ("b", Dtype.obj)] := by
    unfold keptHeader
    rw [show exHM.header =
      [("a", Dtype.float64), ("b", Dtype.obj), ("s", Dtype.float64)] from rfl]
    rw [List.filter_cons, List.filter_cons, List.filter_cons, hdpa, hdpb, hdps]
    rfl
  have hdnames : droppedNames exHM (1 / 2) = ["s"] := by
    unfold droppedNames
    rw [show exHM.header =
      [("a", Dtype.float64), ("b", Dtype.obj), ("s", Dtype.float64)] from rfl]
    rw [List.filter_cons, List.filter_cons, List.filter_cons, hdpa, hdpb, hdps]
    rfl
  have hr : keptRows exHM (1 / 2) =
      [[("a", Cell.num 1), ("b", Cell.str "x")],
       [("a", Cell.na), ("b", Cell.str "y")],
       [("a", Cell.num 4), ("b", Cell.na)],
       [("a", Cell.num 10), ("b", Cell.str "x")]] := by
    unfold keptRows
    rw [hdnames]
    decide
  rw [handle_missing_eq, hk, hr]
  decide

/-- C3 witness: the fixture with a sparse column (dropped), a numeric gap
(median-filled) and a text gap (mode-filled) at the default threshold. -/
theorem C3_witness :
    ("s" ∈ colNames exHMout ↔
       ("s" ∈ colNames exHM ∧
        ¬ ((missingCount exHM.rows "s" : ℚ) > (1 / 2) * exHM.rows.length))) ∧
    (∀ r ∈ exHMout.rows, ∀ kv ∈ r, kv.2 ≠ Cell.na) := by
  have h := C3_handle_missing exHM (1 / 2) "median" exHMout (by norm_num)
    (by unfold wfTable; decide) (by unfold wfCells; decide) (by decide) hm_exHM_eq
  exact ⟨h.1 "s", h.2.2.1⟩

/-- C8: `validate_ranges` keeps exactly the rows whose `Year` value lies in
the inclusive range (both endpoints retained, missing years dropped), is the
identity when no `Year` column exists, and on the fixture with years
1969/1970/2025/2026 and the default range keeps exactly 1970 and 2025.  The
hypothesis restricts to numeric-or-missing year cells, the only frames the
source comparison accepts without raising. -/
theorem C8_validate_ranges (t : Table) (a b : ℚ)
    (_hyr : ∀ r ∈ t.rows, isStrCell ((alook "Year" r).getD Cell.na) = false) :
    ("Year" ∈ colNames t →
      (validate_ranges t a b).header = t.header ∧
      (validate_ranges t a b).rows =
        t.rows.filter (fun r => yearInRange a b (alook "Year" r))) ∧
    ("Year" ∉ colNames t → validate_ranges t a b = t) ∧
    (∀ r : Row, yearInRange a b (alook "Year" r) = true ↔
      ∃ q, alook "Year" r = some (Cell.num q) ∧ a ≤ q ∧ q ≤ b) ∧
    (validate_ranges exYears 1970 2025).rows =
      [[("Year", Cell.num 1970)], [("Year", Cell.num 2025)]] := by
  refine ⟨?_, ?_, ?_, by decide⟩
  · intro hmem
    unfold validate_ranges
    rw [if_pos hmem]
    exact ⟨rfl, rfl⟩
  · intro hmem
    unfold validate_ranges
    rw [if_neg hmem]
  · intro r
    unfold yearInRange
    rcases halook : alook "Year" r with _ | c
    · simp
    · rcases c with _ | q | sv
      · simp
      · simp only [Bool.and_eq_true, decide_eq_true_eq]
        constructor
        · rintro ⟨h1, h2⟩
          exact ⟨q, rfl, h1, h2⟩
        · rintro ⟨q2, hq2, h1, h2⟩
          have h3 : q = q2 := by
            injection hq2 with h4
            injection h4
          rw [h3]
          exact ⟨h1, h2⟩
      · simp

/-- C8 witness: the concrete fixture through the theorem. -/
theorem C8_witness :
    (validate_ranges exYears 1970 2025).rows =
      [[("Year", Cell.num 1970)], [("Year", Cell.num 2025)]] :=
  (C8_validate_ranges exYears 1970 2025 (by decide)).2.2.2

section CleanTextHelpers

theorem clean_text_step_rows_absent {t : Table} {c : String} (h : c ∉ colNames t) :
    clean_text_step t c = t := by
  unfold clean_text_step
  rw [if_neg h]

theorem clean_text_step_colNames (t : Table) (c : String) :
    colNames (clean_text_step t c) = colNames t := by
  unfold clean_text_step
  by_cases h : c ∈ colNames t
  · rw [if_pos h]
    unfold colNames
    rw [List.map_map]
    refine List.map_congr_left (fun kd hkd => ?_)
    by_cases hk : kd.1 = c <;> simp [hk]
  · rw [if_neg h]

theorem clean_text_step_colOpt_self {t : Table} {c : String} (h : c ∈ colNames t) :
    colOpt (clean_text_step t c).rows c = (colOpt t.rows c).map (Option.map textCellClean) := by
  unfold clean_text_step
  rw [if_pos h]
  exact colOpt_map_mapVal_self t.rows c textCellClean

theorem clean_text_step_colOpt_ne (t : Table) {c k : String} (h : c ≠ k) :
    colOpt (clean_text_step t c).rows k = colOpt t.rows k := by
  unfold clean_text_step
  by_cases hp : c ∈ colNames t
  · rw [if_pos hp]
    exact colOpt_map_mapVal_ne h t.rows textCellClean
  · rw [if_neg hp]

theorem clean_text_eq (t : Table) :
    clean_text t = clean_text_step (clean_text_step t "Bird_Species") "Country" := rfl

end CleanTextHelpers

/-- C9: `clean_text` maps every cell of each present text column
(`Bird_Species`, `Country`) to its text form stripped of edge whitespace and
title-cased, leaves all other columns untouched, is the identity when both
text columns are absent, and sends "  asian koel  " to "Asian Koel". -/
theorem C9_clean_text (t : Table) :
    (∀ c ∈ text_cols, c ∈ colNames t →
        colOpt (clean_text t).rows c = (colOpt t.rows c).map (Option.map textCellClean)) ∧
    (∀ k, k ∉ text_cols → colOpt (clean_text t).rows k = colOpt t.rows k) ∧
    ("Bird_Species" ∉ colNames t → "Country" ∉ colNames t → clean_text t = t) ∧
    textCellClean (Cell.str "  asian koel  ") = Cell.str "Asian Koel" := by
  refine ⟨?_, ?_, ?_, by decide⟩
  · intro c hc hpresent
    simp only [text_cols, List.mem_cons, List.not_mem_nil, or_false] at hc
    rcases hc with rfl | rfl
    · rw [clean_text_eq,
        clean_text_step_colOpt_ne _ (by decide : "Country" ≠ "Bird_Species")]
      exact clean_text_step_colOpt_self hpresent
    · rw [clean_text_eq]
      have hpres2 : "Country" ∈ colNames (clean_text_step t "Bird_Species") := by
        rw [clean_text_step_colNames]
        exact hpresent
      rw [clean_text_step_colOpt_self hpres2,
        clean_text_step_colOpt_ne t (by decide : "Bird_Species" ≠ "Country")]
  · intro k hk
    simp only [text_cols, List.mem_cons, List.not_mem_nil, or_false, not_or] at hk
    rcases hk with ⟨hk1, hk2⟩
    rw [clean_text_eq,
      clean_text_step_colOpt_ne _ (fun he => hk2 (by rw [he]) : "Country" ≠ k),
      clean_text_step_colOpt_ne _ (fun he => hk1 (by rw [he]) : "Bird_Species" ≠ k)]
  · intro h1 h2
    rw [clean_text_eq, clean_text_step_rows_absent h1, clean_text_step_rows_absent h2]

/-- C9 witness: the present species column of the pipeline fixture. -/
theorem C9_witness :
    colOpt (clean_text exPipe).rows "Bird_Species" =
      (colOpt exPipe.rows "Bird_Species").map (Option.map textCellClean) :=
  (C9_clean_text exPipe).1 "Bird_Species" (by decide) (by decide)

section FixTypesHelpers

theorem fix_types_step_rows (t : Table) (cd : String × Dtype) :
    (fix_types_step t cd).rows = t.rows := by
  unfold fix_types_step
  split_ifs <;> rfl

theorem fix_types_step_colNames (t : Table) (cd : String × Dtype) :
    colNames (fix_types_step t cd) = colNames t := by
  unfold fix_types_step
  split_ifs with h1 h2
  · unfold setDtype colNames
    rw [List.map_map]
    refine List.map_congr_left (fun kd hkd => ?_)
    by_cases hk : kd.1 = cd.1 <;> simp [hk]
  · rfl
  · rfl

theorem castMatch_cons_ne {kd e : String × Dtype} {ms : List (String × Dtype)}
    (rows : List Row) (h : ¬ e.1 = kd.1) :
    (match alook kd.1 (e :: ms) with
     | some dt => if castOK dt (colVals rows kd.1) then (kd.1, dt) else kd
     | none => kd) =
    (match alook kd.1 ms with
     | some dt => if castOK dt (colVals rows kd.1) then (kd.1, dt) else kd
     | none => kd) := by
  rw [alook_cons, if_neg h]

theorem castMatch_cons_self {kd e : String × Dtype} {ms : List (String × Dtype)}
    (rows : List Row) (h : e.1 = kd.1) :
    (match alook kd.1 (e :: ms) with
     | some dt => if castOK dt (colVals rows kd.1) then (kd.1, dt) else kd
     | none => kd) =
    (if castOK e.2 (colVals rows kd.1) then (kd.1, e.2) else kd) := by
  rw [alook_cons, if_pos h]

theorem castMatch_none {kd : String × Dtype} {ms : List (String × Dtype)}
    (rows : List Row) (h : alook kd.1 ms = none) :
    (match alook kd.1 ms with
     | some dt => if castOK dt (colVals rows kd.1) then (kd.1, dt) else kd
     | none => kd) = kd := by
  rw [h]

theorem fix_types_fold (mlist : List (String × Dtype)) :
    ∀ (t : Table), (mlist.map Prod.fst).Nodup →
    (mlist.foldl fix_types_step t).rows = t.rows ∧
    (mlist.foldl fix_types_step t).header = t.header.map (fun kd =>
      match alook kd.1 mlist with
      | some dt => if castOK dt (colVals t.rows kd.1) then (kd.1, dt) else kd
      | none => kd) := by
  induction mlist with
  | nil =>
      intro t _
      refine ⟨rfl, ?_⟩
      show t.header = t.header.map (fun kd => kd)
      rw [List.map_id']
  | cons e ms ih =>
      intro t hnd
      simp only [List.map_cons, List.nodup_cons] at hnd
      rcases hnd with ⟨he, hnd2⟩
      rw [List.foldl_cons]
      rcases ih (fix_types_step t e) hnd2 with ⟨hrows, hhdr⟩
      have hrows0 : (fix_types_step t e).rows = t.rows := fix_types_step_rows t e
      refine ⟨by rw [hrows, hrows0], ?_⟩
      rw [hhdr]
      simp only [hrows0]
      by_cases hp : e.1 ∈ colNames t
      · by_cases hcast : castOK e.2 (colVals t.rows e.1)
        · have hstep : fix_types_step t e = setDtype e.1 e.2 t := by
            unfold fix_types_step
            rw [if_pos hp, if_pos hcast]
          rw [hstep]
          show (t.header.map (fun kd => if kd.1 = e.1 then (kd.1, e.2) else kd)).map _ = _
          rw [List.map_map]
          refine List.map_congr_left (fun kd hkd => ?_)
          show (match alook (if kd.1 = e.1 then ((kd.1 : String), e.2) else kd).1 ms with
            | some dt =>
                if castOK dt (colVals t.rows (if kd.1 = e.1 then ((kd.1 : String), e.2) else kd).1)
                then ((if kd.1 = e.1 then ((kd.1 : String), e.2) else kd).1, dt)
                else (if kd.1 = e.1 then ((kd.1 : String), e.2) else kd)
            | none => (if kd.1 = e.1 then ((kd.1 : String), e.2) else kd)) = _
          by_cases hk : kd.1 = e.1
          · rw [if_pos hk]
            have h1 : alook kd.1 ms = none := by
              rw [alook_eq_none_iff, hk]
              exact he
            rw [castMatch_cons_self t.rows hk.symm, if_pos (hk ▸ hcast)]
            show (match alook kd.1 ms with
              | some dt => if castOK dt (colVals t.rows kd.1) then ((kd.1 : String), dt)
                  else ((kd.1 : String), e.2)
              | none => ((kd.1 : String), e.2)) = ((kd.1 : String), e.2)
            rw [h1]
          · rw [if_neg hk]
            rw [castMatch_cons_ne t.rows (fun hc => hk hc.symm)]
        · have hstep : fix_types_step t e = t := by
            unfold fix_types_step
            rw [if_pos hp, if_neg hcast]
          rw [hstep]
          refine List.map_congr_left (fun kd hkd => ?_)
          by_cases hk : kd.1 = e.1
          · have h1 : alook kd.1 ms = none := by
              rw [alook_eq_none_iff, hk]
              exact he
            rw [castMatch_none t.rows h1, castMatch_cons_self t.rows hk.symm,
              if_neg (hk ▸ hcast)]
          · rw [castMatch_cons_ne t.rows (fun hc => hk hc.symm)]
      · have hstep : fix_types_step t e = t := by
          unfold fix_types_step
          rw [if_neg hp]
        rw [hstep]
        refine List.map_congr_left (fun kd hkd => ?_)
        have hk : ¬ e.1 = kd.1 := by
          intro hc
          exact hp (hc ▸ List.mem_map.2 ⟨kd, hkd, rfl⟩)
        rw [castMatch_cons_ne t.rows hk]

end FixTypesHelpers

/-- C7: `fix_types` is total (its embedding returns a table, never an error),
leaves every cell value unchanged (a successful nullable cast only retypes the
column), and retypes each header entry as follows: a column mapped by
`type_map` and present in the table gets the target dtype exactly when the
whole column casts, and keeps its previous dtype when the cast fails; columns
not in the map, and map entries without a matching column, change nothing. -/
theorem C7_fix_types (t : Table) :
    (fix_types t).rows = t.rows ∧
    (fix_types t).header = t.header.map (fun kd =>
      match alook kd.1 type_map with
      | some dt => if castOK dt (colVals t.rows kd.1) then (kd.1, dt) else kd
      | none => kd) ∧
    (∀ kd ∈ t.header, kd.1 ∉ type_map.map Prod.fst → kd ∈ (fix_types t).header) ∧
    (∀ kd ∈ t.header, ∀ dt, alook kd.1 type_map = some dt →
       (castOK dt (colVals t.rows kd.1) = true → (kd.1, dt) ∈ (fix_types t).header) ∧
       (castOK dt (colVals t.rows kd.1) = false → kd ∈ (fix_types t).header)) := by
  have hnd : (type_map.map Prod.fst).Nodup := by decide
  rcases fix_types_fold type_map t hnd with ⟨hrows, hhdr⟩
  have hfx : fix_types t = List.foldl fix_types_step t type_map := rfl
  refine ⟨hrows, hhdr, ?_, ?_⟩
  · intro kd hkd hnotin
    rw [hfx, hhdr]
    refine List.mem_map.2 ⟨kd, hkd, ?_⟩
    have h1 : alook kd.1 type_map = none := alook_eq_none_iff.2 hnotin
    rw [castMatch_none t.rows h1]
  · intro kd hkd dt hdt
    constructor
    · intro hcast
      rw [hfx, hhdr]
      refine List.mem_map.2 ⟨kd, hkd, ?_⟩
      rw [hdt]
      show (if castOK dt (colVals t.rows kd.1) = true then ((kd.1 : String), dt) else kd) =
        ((kd.1 : String), dt)
      rw [if_pos hcast]
    · intro hcast
      rw [hfx, hhdr]
      refine List.mem_map.2 ⟨kd, hkd, ?_⟩
      rw [hdt]
      show (if castOK dt (colVals t.rows kd.1) = true then ((kd.1 : String), dt) else kd) = kd
      rw [if_neg (by rw [hcast]; exact Bool.false_ne_true)]

/-- C7 witness: on the fixture, the integral year column casts to `Int64` and
the text temperature column keeps its object dtype. -/
theorem C7_witness :
    (fix_types texC7).rows = texC7.rows ∧
    ("Year", Dtype.nInt64) ∈ (fix_types texC7).header ∧
    ("Temperature", Dtype.obj) ∈ (fix_types texC7).header := by
  refine ⟨(C7_fix_types texC7).1, ?_, ?_⟩
  · exact ((C7_fix_types texC7).2.2.2 ("Year", Dtype.int64) (by decide)
      Dtype.nInt64 (by decide)).1 (by decide)
  · exact ((C7_fix_types texC7).2.2.2 ("Temperature", Dtype.obj) (by decide)
      Dtype.nFloat64 (by decide)).2 (by decide)

section C4Helpers

theorem countP_eq_count {α : Type} [DecidableEq α] (l : List α) (c : α) :
    l.countP (fun x => decide (x = c)) = l.count c := rfl

theorem countP_sorted_dedup (l : List Cell) (c : Cell) :
    (sortCells (dedupFirst l)).countP (fun x => decide (x = c)) =
      if c ∈ l then 1 else 0 := by
  rw [countP_eq_count, (sortCells_perm (dedupFirst l)).count_eq, count_dedupFirst]

end C4Helpers

/-- C4: the diversity aggregator (spec-modelled `model_data_mahfuz` behind
`build_species_per_country_table`) emits exactly one row per distinct
non-missing country value, and that row's `species_count` is the number of
distinct non-missing species recorded in that country. -/
theorem C4_build_species_per_country_table (rows : List Row) :
    (∀ c, c ≠ Cell.na →
       ((build_species_per_country_table rows).countP
           (fun w => decide (alook "country" w = some c)) =
         if c ∈ colVals rows "country" then 1 else 0)) ∧
    (∀ w ∈ build_species_per_country_table rows, ∃ c, c ≠ Cell.na ∧
       alook "country" w = some c ∧ c ∈ colVals rows "country" ∧
       alook "species_count" w =
         some (Cell.num ((speciesOf rows c).toFinset.card : ℕ))) := by
  constructor
  · intro c hc
    unfold build_species_per_country_table model_data_mahfuz
    rw [List.countP_map]
    have hpt : ∀ c2 : Cell,
        (decide (alook "country"
          [("country", c2),
           ("species_count", Cell.num ((dedupFirst (speciesOf rows c2)).length : ℕ))] =
            some c)) = decide (c2 = c) := by
      intro c2
      have : alook "country"
          [("country", c2),
           ("species_count", Cell.num ((dedupFirst (speciesOf rows c2)).length : ℕ))] =
          some c2 := rfl
      rw [this]
      by_cases h : c2 = c
      · simp [h]
      · simp [h]
    rw [List.countP_congr (fun c2 _ => by
      show decide (alook "country"
          [("country", c2),
           ("species_count", Cell.num ((dedupFirst (speciesOf rows c2)).length : ℕ))] =
            some c) = true ↔ decide (c2 = c) = true
      rw [hpt c2])]
    rw [countP_sorted_dedup]
    have hmem : (c ∈ (colVals rows "country").filter (fun x => decide (x ≠ Cell.na))) ↔
        c ∈ colVals rows "country" := by
      rw [List.mem_filter]
      constructor
      · exact fun h => h.1
      · exact fun h => ⟨h, by simpa using hc⟩
    by_cases h : c ∈ colVals rows "country"
    · rw [if_pos (hmem.2 h), if_pos h]
    · rw [if_neg (fun hcon => h (hmem.1 hcon)), if_neg h]
  · intro w hw
    unfold build_species_per_country_table model_data_mahfuz at hw
    rcases List.mem_map.1 hw with ⟨c, hcmem, rfl⟩
    have hcf : c ∈ (colVals rows "country").filter (fun x => decide (x ≠ Cell.na)) :=
      mem_dedupFirst.1 (mem_sortCells.1 hcmem)
    rcases List.mem_filter.1 hcf with ⟨hcv, hcna⟩
    refine ⟨c, by simpa using hcna, rfl, hcv, ?_⟩
    have h2 : alook "species_count"
        [("country", c),
         ("species_count", Cell.num ((dedupFirst (speciesOf rows c)).length : ℕ))] =
        some (Cell.num ((dedupFirst (speciesOf rows c)).length : ℕ)) := rfl
    rw [h2, length_dedupFirst]

/-- C4 witness: the two-country fixture has exactly one row for India and its
species count is 2. -/
theorem C4_witness :
    ((build_species_per_country_table exDiv).countP
        (fun w => decide (alook "country" w = some (Cell.str "India"))) =
      if (Cell.str "India") ∈ colVals exDiv "country" then 1 else 0) :=
  (C4_build_species_per_country_table exDiv).1 (Cell.str "India") (by decide)

section C2Helpers

theorem mem_groupCS {rows : List Row} {c s : Cell} {r : Row} :
    r ∈ groupCS rows c s ↔
      (r ∈ rows ∧ alook "country" r = some c ∧ alook "bird_species" r = some s) := by
  unfold groupCS
  rw [List.mem_filter]
  simp [Bool.and_eq_true, decide_eq_true_eq, and_assoc]

theorem mem_annualRows {csdf : List Row} {y : Cell} {r : Row} :
    r ∈ annualRows csdf y ↔ (r ∈ csdf ∧ alook "year" r = some y) := by
  unfold annualRows
  rw [List.mem_filter]
  simp

theorem mem_distinctSorted {rows : List Row} {c : String} {x : Cell} :
    x ∈ distinctSorted rows c ↔ x ∈ colVals rows c := by
  unfold distinctSorted
  rw [mem_sortCells, mem_dedupFirst]

theorem nodup_distinctSorted (rows : List Row) (c : String) :
    (distinctSorted rows c).Nodup :=
  nodup_sortCells (nodup_dedupFirst _)

theorem mkStat_country (c s y : Cell) (m : Row) :
    alook "country" (mkStat c s y m) = some c := rfl

theorem mkStat_species (c s y : Cell) (m : Row) :
    alook "bird_species" (mkStat c s y m) = some s := by
  simp [mkStat, alook_cons]

theorem mkStat_year (c s y : Cell) (m : Row) :
    alook "year" (mkStat c s y m) = some y := by
  simp [mkStat, alook_cons]

theorem mkStat_shift (c s y : Cell) (m : Row) :
    alook "max_shift_km" (mkStat c s y m) = some ((alook "shift_km" m).getD Cell.na) := by
  simp [mkStat, alook_cons]

theorem mkStat_pop (c s y : Cell) (m : Row) :
    alook "population_at_max_shift" (mkStat c s y m) =
      some ((alook "population" m).getD Cell.na) := by
  simp [mkStat, alook_cons]

theorem mkStat_temp (c s y : Cell) (m : Row) :
    alook "temperature_at_max_shift" (mkStat c s y m) =
      some ((alook "temperature" m).getD Cell.na) := by
  simp [mkStat, alook_cons]

theorem mem_statsFor {rows : List Row} {c s : Cell} {w : Row} :
    w ∈ statsFor rows c s ↔
      (groupCS rows c s ≠ [] ∧ ∃ y ∈ distinctSorted rows "year", ∃ m,
        pickMax shiftQ (annualRows (groupCS rows c s) y) = some m ∧
        w = mkStat c s y m) := by
  unfold statsFor
  by_cases hg : groupCS rows c s = []
  · rw [if_pos hg]
    simp [hg]
  · rw [if_neg hg]
    rw [List.mem_filterMap]
    constructor
    · rintro ⟨y, hy, hmatch⟩
      rcases hpick : pickMax shiftQ (annualRows (groupCS rows c s) y) with _ | m
      · rw [hpick] at hmatch
        simp at hmatch
      · rw [hpick] at hmatch
        simp only [Option.some_inj] at hmatch
        exact ⟨hg, y, hy, m, hpick, hmatch.symm⟩
    · rintro ⟨_, y, hy, m, hpick, rfl⟩
      refine ⟨y, hy, ?_⟩
      rw [hpick]

theorem year_mem_of_annual {rows : List Row} {c s y : Cell} {r : Row}
    (h : r ∈ annualRows (groupCS rows c s) y) : y ∈ distinctSorted rows "year" := by
  rcases mem_annualRows.1 h with ⟨hg, hy⟩
  rcases mem_groupCS.1 hg with ⟨hr, _, _⟩
  rw [mem_distinctSorted]
  exact List.mem_filterMap.2 ⟨r, hr, hy⟩

theorem species_mem_of_annual {rows : List Row} {c s y : Cell} {r : Row}
    (h : r ∈ annualRows (groupCS rows c s) y) :
    s ∈ distinctSorted rows "bird_species" := by
  rcases mem_annualRows.1 h with ⟨hg, _⟩
  rcases mem_groupCS.1 hg with ⟨hr, _, hs⟩
  rw [mem_distinctSorted]
  exact List.mem_filterMap.2 ⟨r, hr, hs⟩

theorem country_mem_of_annual {rows : List Row} {c s y : Cell} {r : Row}
    (h : r ∈ annualRows (groupCS rows c s) y) :
    c ∈ distinctSorted rows "country" := by
  rcases mem_annualRows.1 h with ⟨hg, _⟩
  rcases mem_groupCS.1 hg with ⟨hr, hc, _⟩
  rw [mem_distinctSorted]
  exact List.mem_filterMap.2 ⟨r, hr, hc⟩

end C2Helpers

section C2Counts

theorem statsFor_countP_ne_c {rows : List Row} {c s c0 s0 y0 : Cell} (hc : c ≠ c0) :
    (statsFor rows c s).countP (fun w => decide (alook "country" w = some c0 ∧
      alook "bird_species" w = some s0 ∧ alook "year" w = some y0)) = 0 := by
  refine List.countP_eq_zero.2 (fun w hw => ?_)
  rcases mem_statsFor.1 hw with ⟨_, y, _, m, _, rfl⟩
  rw [mkStat_country, mkStat_species, mkStat_year]
  simp only [decide_eq_true_eq, Option.some_inj]
  rintro ⟨h1, _⟩
  exact hc h1

theorem statsFor_countP_ne_s {rows : List Row} {c s c0 s0 y0 : Cell} (hs : s ≠ s0) :
    (statsFor rows c s).countP (fun w => decide (alook "country" w = some c0 ∧
      alook "bird_species" w = some s0 ∧ alook "year" w = some y0)) = 0 := by
  refine List.countP_eq_zero.2 (fun w hw => ?_)
  rcases mem_statsFor.1 hw with ⟨_, y, _, m, _, rfl⟩
  rw [mkStat_country, mkStat_species, mkStat_year]
  simp only [decide_eq_true_eq, Option.some_inj]
  rintro ⟨_, h2, _⟩
  exact hs h2

theorem annual_nil_of_not_mem {rows : List Row} {c s y : Cell}
    (hy : y ∉ distinctSorted rows "year") :
    annualRows (groupCS rows c s) y = [] := by
  cases hann : annualRows (groupCS rows c s) y with
  | nil => rfl
  | cons r rest =>
      have hr : r ∈ annualRows (groupCS rows c s) y := by
        rw [hann]
        exact List.mem_cons_self _ _
      exact absurd (year_mem_of_annual hr) hy

theorem statsFor_countP_self (rows : List Row) (c s y : Cell) :
    (statsFor rows c s).countP (fun w => decide (alook "country" w = some c ∧
      alook "bird_species" w = some s ∧ alook "year" w = some y)) =
      if annualRows (groupCS rows c s) y = [] then 0 else 1 := by
  by_cases hg : groupCS rows c s = []
  · have h1 : statsFor rows c s = [] := by
      unfold statsFor
      rw [if_pos hg]
    have h2 : annualRows (groupCS rows c s) y = [] := by
      rw [hg]
      rfl
    rw [h1, h2]
    rfl
  · have h1 : statsFor rows c s = (distinctSorted rows "year").filterMap
        (fun y2 => match pickMax shiftQ (annualRows (groupCS rows c s) y2) with
          | none => none
          | some m => some (mkStat c s y2 m)) := by
      unfold statsFor
      rw [if_neg hg]
    rw [h1, countP_filterMap]
    have hterm : ∀ y2, y2 ≠ y →
        (((match pickMax shiftQ (annualRows (groupCS rows c s) y2) with
           | none => none
           | some m => some (mkStat c s y2 m)) : Option Row).toList.countP
          (fun w => decide (alook "country" w = some c ∧
            alook "bird_species" w = some s ∧ alook "year" w = some y))) = 0 := by
      intro y2 hne
      rcases hpick : pickMax shiftQ (annualRows (groupCS rows c s) y2) with _ | m
      · rfl
      · show List.countP _ [mkStat c s y2 m] = 0
        rw [List.countP_cons]
        simp only [List.countP_nil, mkStat_country, mkStat_species, mkStat_year,
          decide_eq_true_eq, Option.some_inj]
        have h4 : ¬ (c = c ∧ s = s ∧ y2 = y) := by
          rintro ⟨_, _, h3⟩
          exact hne h3
        simp [h4]
        exact hne
    by_cases hy : y ∈ distinctSorted rows "year"
    · rw [sum_map_eq_single hy (nodup_distinctSorted rows "year")
        (fun y2 _ hne => hterm y2 hne)]
      rcases hpick : pickMax shiftQ (annualRows (groupCS rows c s) y) with _ | m
      · have hann : annualRows (groupCS rows c s) y = [] :=
          (pickMax_eq_none_iff _ _).1 hpick
        rw [if_pos hann]
        rfl
      · have hann : annualRows (groupCS rows c s) y ≠ [] := by
          intro hcon
          rw [(pickMax_eq_none_iff _ _).2 hcon] at hpick
          cases hpick
        rw [if_neg hann]
        show List.countP _ [mkStat c s y m] = 1
        rw [List.countP_cons]
        simp [mkStat_country, mkStat_species, mkStat_year]
    · rw [if_pos (annual_nil_of_not_mem hy)]
      exact sum_map_eq_zero (fun y2 hy2 => hterm y2 (fun he => hy (he ▸ hy2)))

theorem inner_flat_countP (rows : List Row) (c s y : Cell) :
    (((distinctSorted rows "bird_species").flatMap (fun s2 => statsFor rows c s2)).countP
      (fun w => decide (alook "country" w = some c ∧
        alook "bird_species" w = some s ∧ alook "year" w = some y))) =
      if annualRows (groupCS rows c s) y = [] then 0 else 1 := by
  rw [countP_flatMap]
  by_cases hs : s ∈ distinctSorted rows "bird_species"
  · rw [sum_map_eq_single hs (nodup_distinctSorted rows "bird_species")
      (fun s2 _ hne => statsFor_countP_ne_s hne)]
    exact statsFor_countP_self rows c s y
  · have hann : annualRows (groupCS rows c s) y = [] := by
      cases hann2 : annualRows (groupCS rows c s) y with
      | nil => rfl
      | cons r rest =>
          have hr : r ∈ annualRows (groupCS rows c s) y := by
            rw [hann2]
            exact List.mem_cons_self _ _
          exact absurd (species_mem_of_annual hr) hs
    rw [if_pos hann]
    exact sum_map_eq_zero (fun s2 hs2 => statsFor_countP_ne_s (fun he => hs (he ▸ hs2)))

theorem inner_flat_countP_ne (rows : List Row) {c2 c : Cell} (s y : Cell) (hne : c2 ≠ c) :
    (((distinctSorted rows "bird_species").flatMap (fun s2 => statsFor rows c2 s2)).countP
      (fun w => decide (alook "country" w = some c ∧
        alook "bird_species" w = some s ∧ alook "year" w = some y))) = 0 := by
  rw [countP_flatMap]
  exact sum_map_eq_zero (fun s2 _ => statsFor_countP_ne_c hne)

theorem outer_flat_countP (rows : List Row) (c s y : Cell) :
    (((distinctSorted rows "country").flatMap (fun c2 =>
        (distinctSorted rows "bird_species").flatMap (fun s2 => statsFor rows c2 s2))).countP
      (fun w => decide (alook "country" w = some c ∧
        alook "bird_species" w = some s ∧ alook "year" w = some y))) =
      if annualRows (groupCS rows c s) y = [] then 0 else 1 := by
  rw [countP_flatMap]
  by_cases hc : c ∈ distinctSorted rows "country"
  · rw [sum_map_eq_single hc (nodup_distinctSorted rows "country")
      (fun c2 _ hne => inner_flat_countP_ne rows s y hne)]
    exact inner_flat_countP rows c s y
  · have hann : annualRows (groupCS rows c s) y = [] := by
      cases hann2 : annualRows (groupCS rows c s) y with
      | nil => rfl
      | cons r rest =>
          have hr : r ∈ annualRows (groupCS rows c s) y := by
            rw [hann2]
            exact List.mem_cons_self _ _
          exact absurd (country_mem_of_annual hr) hc
    rw [if_pos hann]
    exact sum_map_eq_zero (fun c2 hc2 => inner_flat_countP_ne rows s y (fun he => hc (he ▸ hc2)))

end C2Counts

/-- C2: whenever the shift-extremum aggregator returns (it raises `KeyError`
when it collected no record at all, e.g. on an empty table — the final
conjunct), its output has exactly one row per (country, species, year) triple
that has at least one input row; each row carries the group's maximum
`shift_km` together with the population and temperature of a row attaining
that maximum (a per-group maximum); and the output is sorted ascending by
year.  The first hypothesis scopes the theorem to key columns without missing
values (pandas equality on NaN never matches, so the source's filters behave
like plain equality only there); the second requires a numeric `shift_km` in
every row (`idxmax` needs one). -/
theorem C2_shift_extremum (rows out : List Row)
    (_hkeys : ∀ r ∈ rows, alook "country" r ≠ some Cell.na ∧
       alook "bird_species" r ≠ some Cell.na ∧ alook "year" r ≠ some Cell.na)
    (hshift : ∀ r ∈ rows, ((alook "shift_km" r).bind cellNumQ).isSome = true)
    (hout : get_bird_shift_climate_and_land_usage_data rows = some out) :
    (∀ c s y, out.countP
        (fun w => decide (alook "country" w = some c ∧
          alook "bird_species" w = some s ∧ alook "year" w = some y)) =
      if annualRows (groupCS rows c s) y = [] then 0 else 1) ∧
    (∀ w ∈ out, ∃ c s y m qm,
      m ∈ annualRows (groupCS rows c s) y ∧
      alook "country" w = some c ∧
      alook "bird_species" w = some s ∧
      alook "year" w = some y ∧
      alook "shift_km" m = some (Cell.num qm) ∧
      alook "max_shift_km" w = some (Cell.num qm) ∧
      alook "population_at_max_shift" w = some ((alook "population" m).getD Cell.na) ∧
      alook "temperature_at_max_shift" w = some ((alook "temperature" m).getD Cell.na) ∧
      (∀ r ∈ annualRows (groupCS rows c s) y, ∀ q0,
        alook "shift_km" r = some (Cell.num q0) → q0 ≤ qm)) ∧
    List.Sorted (fun w1 w2 => rowYearKey w1 ≤ rowYearKey w2) out ∧
    get_bird_shift_climate_and_land_usage_data [] = none := by
  unfold get_bird_shift_climate_and_land_usage_data at hout
  split_ifs at hout with hnil
  · injection hout with h2
    subst h2
    have hperm : (List.insertionSort (fun a b => rowYearKey a ≤ rowYearKey b)
        (shiftStats rows)).Perm (shiftStats rows) := List.perm_insertionSort _ _
    refine ⟨?_, ?_, ?_, rfl⟩
    · intro c s y
      rw [hperm.countP_eq]
      exact outer_flat_countP rows c s y
    · intro w hw
      rw [hperm.mem_iff] at hw
      unfold shiftStats at hw
      rcases List.mem_flatMap.1 hw with ⟨c, hc, hw2⟩
      rcases List.mem_flatMap.1 hw2 with ⟨s, hs, hw3⟩
      rcases mem_statsFor.1 hw3 with ⟨_, y, hy, m, hpick, rfl⟩
      have hmann : m ∈ annualRows (groupCS rows c s) y := pickMax_mem _ m hpick
      have hmrows : m ∈ rows := (mem_groupCS.1 (mem_annualRows.1 hmann).1).1
      have hqm : ∃ qm, alook "shift_km" m = some (Cell.num qm) := by
        have h1 := hshift m hmrows
        rcases halook : alook "shift_km" m with _ | c0
        · rw [halook] at h1
          cases h1
        · rcases c0 with _ | q0 | s0
          · rw [halook] at h1
            cases h1
          · exact ⟨q0, rfl⟩
          · rw [halook] at h1
            cases h1
      rcases hqm with ⟨qm, hqm⟩
      have hshiftm : shiftQ m = qm := by
        unfold shiftQ
        rw [hqm]
        rfl
      refine ⟨c, s, y, m, qm, hmann, mkStat_country c s y m, mkStat_species c s y m,
        mkStat_year c s y m, hqm, ?_, mkStat_pop c s y m, mkStat_temp c s y m, ?_⟩
      · rw [mkStat_shift, hqm]
        rfl
      · intro r hr q0 hq0
        have h1 : shiftQ r ≤ shiftQ m := pickMax_le _ m hpick r hr
        have h2 : shiftQ r = q0 := by
          unfold shiftQ
          rw [hq0]
          rfl
        rw [← hshiftm, ← h2]
        exact h1
    · haveI h1 : IsTotal Row (fun w1 w2 => rowYearKey w1 ≤ rowYearKey w2) :=
        ⟨fun a b => le_total _ _⟩
      haveI h2 : IsTrans Row (fun w1 w2 => rowYearKey w1 ≤ rowYearKey w2) :=
        ⟨fun a b c hab hbc => le_trans hab hbc⟩
      exact List.sorted_insertionSort _ _

/-- C2 witness: on the fixture with shifts 10, 45, 22 in three years the
aggregator returns, and its output has exactly one row for the
(India, Koel, 2001) triple. -/
theorem C2_witness :
    exShiftOut.countP
        (fun w => decide (alook "country" w = some (Cell.str "India") ∧
          alook "bird_species" w = some (Cell.str "Koel") ∧
          alook "year" w = some (Cell.num 2001))) =
      if annualRows (groupCS exShift (Cell.str "India") (Cell.str "Koel"))
          (Cell.num 2001) = [] then 0 else 1 :=
  (C2_shift_extremum exShift exShiftOut (by decide) (by decide) (by decide)).1
    (Cell.str "India") (Cell.str "Koel") (Cell.num 2001)

section C6Helpers

theorem count_of_nodup {α : Type} [DecidableEq α] {l : List α} (h : l.Nodup) (a : α) :
    l.count a = if a ∈ l then 1 else 0 := by
  by_cases hm : a ∈ l
  · rw [if_pos hm]
    exact List.count_eq_one_of_mem h hm
  · rw [if_neg hm]
    exact List.count_eq_zero_of_not_mem hm

theorem alook_append_right (k : String) (l1 l2 : Row)
    (h : ∀ kv ∈ l1, kv.1 ≠ k) : alook k (l1 ++ l2) = alook k l2 := by
  induction l1 with
  | nil => rfl
  | cons kv t ih =>
      rw [List.cons_append, alook_cons, if_neg (h kv (List.mem_cons_self kv t))]
      exact ih (fun kv2 h2 => h kv2 (List.mem_cons_of_mem kv h2))

theorem alook_species_map (l : List Cell) (hstr : ∀ a ∈ l, isStrCell a = true)
    (g : Cell → Cell) (tail : Row) :
    ∀ s ∈ l, alook (cellToStr s) (l.map (fun x => (cellToStr x, g x)) ++ tail) =
      some (g s) := by
  induction l with
  | nil => intro s hs; cases hs
  | cons a t ih =>
      intro s hs
      rw [List.map_cons, List.cons_append, alook_cons]
      by_cases heq : cellToStr a = cellToStr s
      · have ha : a = s := by
          have h1 := hstr a (List.mem_cons_self a t)
          have h2 := hstr s hs
          cases a with
          | na => cases h1
          | num q => cases h1
          | str sa =>
              cases s with
              | na => cases h2
              | num q => cases h2
              | str ss =>
                  simp only [cellToStr] at heq
                  rw [heq]
        rw [if_pos heq, ha]
      · rw [if_neg heq]
        rcases List.mem_cons.1 hs with h1 | h1
        · exact absurd (congrArg cellToStr h1.symm) heq
        · exact ih (fun a2 h2 => hstr a2 (List.mem_cons_of_mem a h2)) s h1

end C6Helpers

/-- C6: the yearly aggregator emits exactly one row per year present both in
the population-pivot index and in the climate-average index (inner join on
year; other years are dropped); each row carries, per species, the SUM of that
species' population values for that year (NA where the species has no row that
year — a pivot hole), and the per-year MEANS of temperature, precipitation and
traffic.  The hypotheses scope to species values that are text and do not
collide with the four fixed labels, so that column lookups by species name are
unambiguous. -/
theorem C6_model_data_spyros (rows : List Row)
    (hsp : ∀ s ∈ pivotSpecies rows, isStrCell s = true)
    (hname : ∀ s ∈ pivotSpecies rows,
      cellToStr s ≠ "year" ∧ cellToStr s ≠ "temperature" ∧
      cellToStr s ≠ "precipitation" ∧ cellToStr s ≠ "traffic") :
    (∀ y : Cell, (model_data_spyros rows).countP
        (fun w => decide (alook "year" w = some y)) =
      if y ∈ pivotYears rows ∧ y ∈ avgYears rows then 1 else 0) ∧
    (∀ w ∈ model_data_spyros rows, ∃ y,
      y ∈ pivotYears rows ∧ y ∈ avgYears rows ∧
      alook "year" w = some y ∧
      (∀ s ∈ pivotSpecies rows, alook (cellToStr s) w =
        some (if groupSY rows s y = [] then Cell.na
              else Cell.num (colNums (groupSY rows s y) "population").sum)) ∧
      alook "temperature" w = some (meanCellOf rows "temperature" y) ∧
      alook "precipitation" w = some (meanCellOf rows "precipitation" y) ∧
      alook "traffic" w = some (meanCellOf rows "traffic" y)) := by
  constructor
  · intro y
    unfold model_data_spyros
    rw [List.countP_map]
    have hnd : ((pivotYears rows).filter
        (fun y2 => decide (y2 ∈ avgYears rows))).Nodup :=
      List.Nodup.filter _ (nodup_sortCells (nodup_dedupFirst _))
    have hcong : ∀ y2 ∈ (pivotYears rows).filter
        (fun y2 => decide (y2 ∈ avgYears rows)),
        ((fun w => decide (alook "year" w = some y)) ∘ (fun y3 =>
          ("year", y3) ::
            (((pivotSpecies rows).map (fun s => (cellToStr s, pivotCell rows s y3))) ++
              [("temperature", meanCellOf rows "temperature" y3),
               ("precipitation", meanCellOf rows "precipitation" y3),
               ("traffic", meanCellOf rows "traffic" y3)]))) y2 = true ↔
        (fun y3 => decide (y3 = y)) y2 = true := by
      intro y2 _
      simp [Function.comp, alook_cons]
    rw [List.countP_congr hcong, countP_eq_count, count_of_nodup hnd y]
    have hiff : (y ∈ (pivotYears rows).filter
        (fun y2 => decide (y2 ∈ avgYears rows))) ↔
        (y ∈ pivotYears rows ∧ y ∈ avgYears rows) := by
      simp [List.mem_filter]
    exact if_congr hiff rfl rfl
  · intro w hw
    unfold model_data_spyros at hw
    rcases List.mem_map.1 hw with ⟨y, hyf, rfl⟩
    rcases List.mem_filter.1 hyf with ⟨hy1, hy2b⟩
    have hy2 : y ∈ avgYears rows := of_decide_eq_true hy2b
    refine ⟨y, hy1, hy2, ?_, ?_, ?_, ?_, ?_⟩
    · simp [alook_cons]
    · intro s hs
      rw [alook_cons, if_neg (fun hh => (hname s hs).1 hh.symm)]
      have h1 := alook_species_map (pivotSpecies rows) hsp
        (fun x => pivotCell rows x y)
        [("temperature", meanCellOf rows "temperature" y),
         ("precipitation", meanCellOf rows "precipitation" y),
         ("traffic", meanCellOf rows "traffic" y)] s hs
      simpa [pivotCell] using h1
    · rw [alook_cons, if_neg (fun hh => (by decide : ("year" : String) ≠ "temperature") hh),
        alook_append_right "temperature" _ _ (fun kv hkv => by
          rcases List.mem_map.1 hkv with ⟨s2, hs2, rfl⟩
          exact (hname s2 hs2).2.1)]
      simp [alook_cons]
    · rw [alook_cons, if_neg (fun hh => (by decide : ("year" : String) ≠ "precipitation") hh),
        alook_append_right "precipitation" _ _ (fun kv hkv => by
          rcases List.mem_map.1 hkv with ⟨s2, hs2, rfl⟩
          exact (hname s2 hs2).2.2.1)]
      simp [alook_cons]
    · rw [alook_cons, if_neg (fun hh => (by decide : ("year" : String) ≠ "traffic") hh),
        alook_append_right "traffic" _ _ (fun kv hkv => by
          rcases List.mem_map.1 hkv with ⟨s2, hs2, rfl⟩
          exact (hname s2 hs2).2.2.2)]
      simp [alook_cons]

/-- C6 witness: on the two-species fixture, the aggregator has exactly one row
for year 2000 (present in both the pivot and the climate averages). -/
theorem C6_witness :
    (model_data_spyros exSpy).countP
        (fun w => decide (alook "year" w = some (Cell.num 2000))) =
      if Cell.num 2000 ∈ pivotYears exSpy ∧ Cell.num 2000 ∈ avgYears exSpy
      then 1 else 0 :=
  (C6_model_data_spyros exSpy (by decide) (by decide)).1 (Cell.num 2000)

section C1Helpers

theorem mapVal_eq_self {κ β : Type} [DecidableEq κ] {k : κ} {f : β → β}
    {r : List (κ × β)} (h : ∀ kv ∈ r, kv.1 = k → f kv.2 = kv.2) :
    mapVal k f r = r := by
  unfold mapVal
  have h1 : ∀ kv ∈ r, (if kv.1 = k then (kv.1, f kv.2) else kv) = id kv := by
    intro kv hkv
    by_cases hk : kv.1 = k
    · rw [if_pos hk, h kv hkv hk]
      rfl
    · rw [if_neg hk]
      rfl
  rw [List.map_congr_left h1, List.map_id]

theorem lowerRow_inj : ∀ (r r2 : Row), r.map Prod.fst = r2.map Prod.fst →
    r.map (fun kv => (myLower kv.1, kv.2)) = r2.map (fun kv => (myLower kv.1, kv.2)) →
    r = r2 := by
  intro r
  induction r with
  | nil =>
      intro r2 hk _
      exact (List.map_eq_nil.1 hk.symm).symm
  | cons kv tr ih =>
      intro r2 hk hv
      cases r2 with
      | nil => cases hk
      | cons kv2 tr2 =>
          simp only [List.map_cons, List.cons.injEq] at hk hv
          have h1 : kv = kv2 := by
            rcases kv with ⟨a, b⟩
            rcases kv2 with ⟨a2, b2⟩
            simp only [Prod.mk.injEq] at hv ⊢
            exact ⟨hk.1, hv.1.2⟩
          rw [h1, ih tr2 hk.2 hv.2]

theorem fold_fillStep_clean (m : String) (hdr : List (String × Dtype)) :
    ∀ (rs : List Row), (∀ cd ∈ hdr, missingCount rs cd.1 = 0) →
    hdr.foldlM (fillStep m) rs = some rs := by
  induction hdr with
  | nil => intro rs _; rfl
  | cons cd hdr2 ih =>
      intro rs h0
      rw [List.foldlM_cons]
      have hstep : fillStep m rs cd = some rs := by
        unfold fillStep
        rw [h0 cd (List.mem_cons_self cd hdr2)]
        rfl
      rw [hstep]
      simp only [Option.bind_eq_bind, Option.some_bind]
      exact ih rs (fun cd2 h2 => h0 cd2 (List.mem_cons_of_mem cd h2))

theorem handle_missing_clean {t : Table} {q : ℚ} (m : String)
    (h0 : ∀ cd ∈ t.header, missingCount t.rows cd.1 = 0) (hq : 0 ≤ q) :
    handle_missing t q m = some t := by
  have hnodrop : ∀ cd ∈ t.header, dropPred t q cd = false := by
    intro cd hcd
    unfold dropPred
    rw [h0 cd hcd]
    refine decide_eq_false ?_
    push_neg
    push_cast
    positivity
  have hk : keptHeader t q = t.header := by
    unfold keptHeader
    refine List.filter_eq_self.2 (fun cd hcd => ?_)
    rw [hnodrop cd hcd]
    rfl
  have hdn : droppedNames t q = [] := by
    unfold droppedNames
    rw [List.filter_eq_nil.2 (fun cd hcd => by rw [hnodrop cd hcd]; exact Bool.false_ne_true)]
    rfl
  have hr : keptRows t q = t.rows := by
    unfold keptRows
    rw [hdn]
    have h1 : ∀ r ∈ t.rows,
        (r.filter (fun kv => ! decide (kv.1 ∈ ([] : List String)))) = id r := by
      intro r _
      have h2 : ∀ kv ∈ r, (! decide (kv.1 ∈ ([] : List String))) = true := by
        intro kv _
        simp
      rw [List.filter_eq_self.2 h2]
      rfl
    rw [List.map_congr_left h1, List.map_id]
  rw [handle_missing_eq, hk, hr, fold_fillStep_clean m t.header t.rows h0]
  rfl

theorem handle_missing_keys {t : Table} {q : ℚ} {m : String} {out : Table}
    (hwf : wfTable t) (hout : handle_missing t q m = some out) :
    ∀ r ∈ out.rows, r.map Prod.fst = (keptHeader t q).map Prod.fst := by
  rcases handle_missing_some hout with ⟨_, hfold⟩
  intro r hr
  have h1 : out.rows.map (List.map Prod.fst) = (keptRows t q).map (List.map Prod.fst) :=
    fill_fold_keys m _ _ _ hfold
  have h2 : r.map Prod.fst ∈ (keptRows t q).map (List.map Prod.fst) := by
    rw [← h1]
    exact List.mem_map.2 ⟨r, hr, rfl⟩
  rcases List.mem_map.1 h2 with ⟨r1, hr1, heq⟩
  rw [← heq]
  exact keptRows_keys hwf r1 hr1

theorem foldl_fix_types_colNames (ml : List (String × Dtype)) :
    ∀ t, colNames (ml.foldl fix_types_step t) = colNames t := by
  induction ml with
  | nil => intro t; rfl
  | cons cd ml2 ih =>
      intro t
      rw [List.foldl_cons]
      exact (ih (fix_types_step t cd)).trans (fix_types_step_colNames t cd)

theorem clean_text_step_header_mem {t : Table} {c : String} {kd : String × Dtype}
    (h : kd ∈ (clean_text_step t c).header) (hne : kd.1 ≠ c) : kd ∈ t.header := by
  unfold clean_text_step at h
  split_ifs at h with hp
  · rcases List.mem_map.1 h with ⟨kd0, hkd0, heq⟩
    by_cases hk : kd0.1 = c
    · rw [if_pos hk] at heq
      rw [← heq] at hne
      exact absurd hk hne
    · rw [if_neg hk] at heq
      rw [← heq]
      exact hkd0
  · exact h

theorem lowercase_rows (t2 : Table) :
    (lowercase_columns t2).rows =
      t2.rows.map (fun r => r.map (fun kv => (myLower kv.1, kv.2))) := rfl

theorem lowercase_header (t2 : Table) :
    (lowercase_columns t2).header =
      t2.header.map (fun kd => (myLower kd.1, kd.2)) := rfl

theorem validate_ranges_facts (t2 : Table) (a b : ℚ) :
    List.Sublist (validate_ranges t2 a b).rows t2.rows ∧
    (validate_ranges t2 a b).header = t2.header ∧
    ∀ r ∈ (validate_ranges t2 a b).rows, "Year" ∈ colNames t2 →
      yearInRange a b (alook "Year" r) = true := by
  unfold validate_ranges
  by_cases hY : "Year" ∈ colNames t2
  · rw [if_pos hY]
    refine ⟨List.filter_sublist _, rfl, ?_⟩
    intro r hr _
    exact (List.mem_filter.1 hr).2
  · rw [if_neg hY]
    exact ⟨List.Sublist.refl _, rfl, fun r hr hcon => absurd hcon hY⟩

theorem clean_text_rows_fix {t : Table}
    (hfix : ∀ r ∈ t.rows, ∀ kv ∈ r, kv.1 ∈ text_cols → textCellClean kv.2 = kv.2) :
    (clean_text t).rows = t.rows := by
  have hstep : ∀ c ∈ text_cols, ∀ (t2 : Table), t2.rows = t.rows →
      (clean_text_step t2 c).rows = t.rows := by
    intro c hc t2 ht2
    unfold clean_text_step
    split_ifs with hp
    · show (t2.rows.map (mapVal c textCellClean)) = t.rows
      rw [ht2]
      have h1 : ∀ r ∈ t.rows, mapVal c textCellClean r = id r := by
        intro r hr
        show mapVal c textCellClean r = r
        exact mapVal_eq_self (fun kv hkv hk1 => hfix r hr kv hkv (hk1 ▸ hc))
      rw [List.map_congr_left h1, List.map_id]
    · exact ht2
  rw [clean_text_eq]
  exact hstep "Country" (by decide) _ (hstep "Bird_Species" (by decide) t rfl)

end C1Helpers

/-- C1 counterexample: on `exC1` — an input the loader accepts, with two rows
differing only in the casing of the species text, a text-valued `Temperature`
column, and label pairs that collide once lower-cased — the pipeline succeeds
but the output violates the claimed invariants: it contains two identical rows
(deduplication ran before the text normalisation that made them equal), a
`year` value 1900 outside the default bounds (range validation only read the
canonically cased `Year` column), an untrimmed species-column value, and an
`object`-kind `temperature` column (the cast failed silently). -/
theorem C1_counterexample :
    clean_bird_data exC1 = some exC1out ∧
    ¬ exC1out.rows.Nodup ∧
    (∃ r ∈ exC1out.rows, ("year", Cell.num 1900) ∈ r ∧ ¬ ((1970 : ℚ) ≤ 1900)) ∧
    (("temperature", Dtype.obj) ∈ exC1out.header ∧ Dtype.obj ≠ Dtype.nFloat64) ∧
    (∃ r ∈ exC1out.rows, ("bird_species", Cell.str "  x  ") ∈ r ∧
      myTrim "  x  " ≠ "  x  ") := by
  refine ⟨?_, by decide, ?_, by decide, ?_⟩
  · have h1 : handle_missing exC1 (1 / 2) "median" = some exC1 :=
      handle_missing_clean "median" (by decide) (by norm_num)
    unfold clean_bird_data
    rw [h1]
    rfl
  · refine ⟨exC1out.rows.head (by decide), by decide, by decide, by norm_num⟩
  · exact ⟨exC1out.rows.head (by decide), by decide, by decide, by decide⟩

/-- C1 (amended): on well-formed inputs whose column labels do not collide
once lower-cased and use the documented canonical casing, and whose text
columns are already normalised (non-missing, trimmed, title-cased — without
this, `clean_text` can reintroduce duplicates after deduplication), a
successful run of `clean_bird_data` yields a table with: no two identical
rows; no missing values; every `year` entry numeric and within the default
inclusive bounds 1970–2025; every mapped column's dtype equal to the target
nullable kind or left at its input dtype (the cast is best-effort); species
and country entries that are trimmed and title-cased text; and all labels
lower-case. -/
theorem C1_clean_bird_data (t u : Table)
    (hwf : wfTable t) (hcells : wfCells t)
    (hnd : ((colNames t).map myLower).Nodup)
    (hcanon : canonicalCasing t)
    (htext : ∀ r ∈ t.rows, ∀ k ∈ text_cols,
      textCellClean ((alook k r).getD (Cell.str "")) = (alook k r).getD (Cell.str ""))
    (hout : clean_bird_data t = some u) :
    u.rows.Nodup ∧
    (∀ r ∈ u.rows, ∀ kv ∈ r, kv.2 ≠ Cell.na) ∧
    (∀ r ∈ u.rows, ∀ kv ∈ r, kv.1 = "year" →
      ∃ q, kv.2 = Cell.num q ∧ (1970 : ℚ) ≤ q ∧ q ≤ 2025) ∧
    (∀ kd ∈ u.header, ∀ cd ∈ type_map, kd.1 = myLower cd.1 →
      kd.2 = cd.2 ∨ (cd.1, kd.2) ∈ t.header) ∧
    (∀ r ∈ u.rows, ∀ kv ∈ r, kv.1 = "bird_species" ∨ kv.1 = "country" →
      ∃ s, kv.2 = Cell.str s ∧ myTrim s = s ∧ myTitle s = s) ∧
    (∀ kd ∈ u.header, noUpper kd.1 = true) := by
  unfold clean_bird_data at hout
  rcases Option.map_eq_some'.1 hout with ⟨d, hd, hu⟩
  have hndplain : (colNames t).Nodup := hnd.of_map
  rcases handle_missing_some hd with ⟨hdhdr, hdfold⟩
  have hkeysd : ∀ r ∈ d.rows, r.map Prod.fst = (keptHeader t (1 / 2)).map Prod.fst :=
    handle_missing_keys hwf hd
  have hnona : ∀ r ∈ d.rows, ∀ kv ∈ r, kv.2 ≠ Cell.na :=
    handle_missing_no_na hwf hcells hndplain (by norm_num) hd
  have hndk : ((keptHeader t (1 / 2)).map Prod.fst).Nodup := keptHeader_names_nodup hndplain
  have htext_d : ∀ r ∈ d.rows, ∀ k ∈ text_cols, ∀ c, alook k r = some c →
      textCellClean c = c := by
    intro r hr k hk c hc
    have hkmem : k ∈ (keptHeader t (1 / 2)).map Prod.fst := by
      rw [← hkeysd r hr]
      exact List.mem_map.2 ⟨(k, c), mem_of_alook hc, rfl⟩
    rcases List.mem_map.1 hkmem with ⟨cd, hcd, rfl⟩
    have hkcol := mem_colNames_keptHeader.1 hkmem
    have hknodrop : cd.1 ∉ droppedNames t (1 / 2) := by
      rw [mem_droppedNames]
      intro hcon
      exact hkcol.2 hcon.2
    have hmc : missingCount t.rows cd.1 = 0 := by
      unfold missingCount
      refine List.countP_eq_zero.2 (fun r0 hr0 => ?_)
      simp only [decide_eq_true_eq]
      intro hna
      have h1 := htext r0 hr0 cd.1 hk
      rw [hna] at h1
      exact absurd h1 (by decide)
    have hcol1 : colOpt (keptRows t (1 / 2)) cd.1 = colOpt t.rows cd.1 :=
      colOpt_keptRows_not_dropped hknodrop
    have hmc2 : missingCount (keptRows t (1 / 2)) cd.1 = 0 := by
      rw [missingCount_eq_countP_colOpt, hcol1, ← missingCount_eq_countP_colOpt, hmc]
    have hcol2 : colOpt d.rows cd.1 = colOpt (keptRows t (1 / 2)) cd.1 :=
      ((fill_fold_desc "median" (keptHeader t (1 / 2)) (keptRows t (1 / 2))
        d.rows hndk hdfold).2 cd hcd).1 hmc2
    have hcin : some c ∈ colOpt t.rows cd.1 := by
      rw [← hcol1, ← hcol2]
      exact List.mem_map.2 ⟨r, hr, hc⟩
    rcases List.mem_map.1 hcin with ⟨r0, hr0, hr0c⟩
    have h1 := htext r0 hr0 cd.1 hk
    rw [hr0c] at h1
    exact h1
  have hfold2 := fix_types_fold type_map (remove_duplicates d) (by decide)
  have hrows2 : (fix_types (remove_duplicates d)).rows = dedupFirst d.rows := hfold2.1
  have hhdr2 : (fix_types (remove_duplicates d)).header =
      (remove_duplicates d).header.map (fun kd =>
        match alook kd.1 type_map with
        | some dt => if castOK dt (colVals (remove_duplicates d).rows kd.1)
                     then (kd.1, dt) else kd
        | none => kd) := hfold2.2
  have hcolsd : colNames d = (keptHeader t (1 / 2)).map Prod.fst := by
    unfold colNames
    rw [hdhdr]
  have hcols2 : colNames (fix_types (remove_duplicates d)) =
      (keptHeader t (1 / 2)).map Prod.fst :=
    (foldl_fix_types_colNames type_map (remove_duplicates d)).trans hcolsd
  have hval3 : List.Sublist
        (validate_ranges (fix_types (remove_duplicates d)) 1970 2025).rows
        (fix_types (remove_duplicates d)).rows ∧
      (validate_ranges (fix_types (remove_duplicates d)) 1970 2025).header =
        (fix_types (remove_duplicates d)).header ∧
      ∀ r ∈ (validate_ranges (fix_types (remove_duplicates d)) 1970 2025).rows,
        "Year" ∈ colNames (fix_types (remove_duplicates d)) →
        yearInRange 1970 2025 (alook "Year" r) = true :=
    validate_ranges_facts (fix_types (remove_duplicates d)) 1970 2025
  have hmem3 : ∀ r ∈ (validate_ranges (fix_types (remove_duplicates d)) 1970 2025).rows,
      r ∈ d.rows := by
    intro r hr
    have h1 : r ∈ (fix_types (remove_duplicates d)).rows := hval3.1.subset hr
    rw [hrows2] at h1
    exact mem_dedupFirst.1 h1
  have hkeys3 : ∀ r ∈ (validate_ranges (fix_types (remove_duplicates d)) 1970 2025).rows,
      r.map Prod.fst = (keptHeader t (1 / 2)).map Prod.fst :=
    fun r hr => hkeysd r (hmem3 r hr)
  have hfixentry : ∀ r ∈ (validate_ranges (fix_types (remove_duplicates d)) 1970 2025).rows,
      ∀ kv ∈ r, kv.1 ∈ text_cols → textCellClean kv.2 = kv.2 := by
    intro r hr kv hkv hkcol
    have hnodupk : (r.map Prod.fst).Nodup := by
      rw [hkeys3 r hr]
      exact hndk
    have halk : alook kv.1 r = some kv.2 := alook_of_mem_nodup hnodupk hkv
    exact htext_d r (hmem3 r hr) kv.1 hkcol kv.2 halk
  have hrows4 : (clean_text (validate_ranges (fix_types (remove_duplicates d))
      1970 2025)).rows = (validate_ranges (fix_types (remove_duplicates d)) 1970 2025).rows :=
    clean_text_rows_fix hfixentry
  have hurows : u.rows = (validate_ranges (fix_types (remove_duplicates d))
      1970 2025).rows.map (fun r => r.map (fun kv => (myLower kv.1, kv.2))) := by
    rw [← hu, lowercase_rows, hrows4]
  have huhdr : u.header = (clean_text (validate_ranges (fix_types (remove_duplicates d))
      1970 2025)).header.map (fun kd => (myLower kd.1, kd.2)) := by
    rw [← hu, lowercase_header]
  refine ⟨?_, ?_, ?_, ?_, ?_, ?_⟩
  · rw [hurows]
    have hnd3 : (validate_ranges (fix_types (remove_duplicates d)) 1970 2025).rows.Nodup := by
      have h2 : (fix_types (remove_duplicates d)).rows.Nodup := by
        rw [hrows2]
        exact nodup_dedupFirst d.rows
      exact List.Nodup.sublist hval3.1 h2
    exact List.Nodup.map_on
      (fun r hr r2 hr2 heq => lowerRow_inj r r2
        (by rw [hkeys3 r hr, hkeys3 r2 hr2]) heq) hnd3
  · intro r hr kv hkv
    rw [hurows] at hr
    rcases List.mem_map.1 hr with ⟨r3, hr3, rfl⟩
    rcases List.mem_map.1 hkv with ⟨kv0, hkv0, rfl⟩
    exact hnona r3 (hmem3 r3 hr3) kv0 hkv0
  · intro r hr kv hkv hky
    rw [hurows] at hr
    rcases List.mem_map.1 hr with ⟨r3, hr3, rfl⟩
    rcases List.mem_map.1 hkv with ⟨kv0, hkv0, rfl⟩
    have hky2 : myLower kv0.1 = "year" := hky
    have hcolt : kv0.1 ∈ colNames t := by
      have h1 : kv0.1 ∈ (keptHeader t (1 / 2)).map Prod.fst := by
        rw [← hkeys3 r3 hr3]
        exact List.mem_map.2 ⟨kv0, hkv0, rfl⟩
      exact (mem_colNames_keptHeader.1 h1).1
    have hYname : kv0.1 = "Year" :=
      hcanon kv0.1 hcolt "Year" (by decide) (by rw [hky2]; decide)
    have hYmem : "Year" ∈ colNames (fix_types (remove_duplicates d)) := by
      rw [hcols2, ← hkeys3 r3 hr3, ← hYname]
      exact List.mem_map.2 ⟨kv0, hkv0, rfl⟩
    have hyear := hval3.2.2 r3 hr3 hYmem
    have hnodupk : (r3.map Prod.fst).Nodup := by
      rw [hkeys3 r3 hr3]
      exact hndk
    have halk : alook "Year" r3 = some kv0.2 := by
      rw [← hYname]
      exact alook_of_mem_nodup hnodupk hkv0
    rw [halk] at hyear
    rcases kv0 with ⟨k0, c0⟩
    cases c0 with
    | na => exact Bool.noConfusion hyear
    | num q =>
        refine ⟨q, rfl, ?_, ?_⟩
        · unfold yearInRange at hyear
          simp only [Bool.and_eq_true, decide_eq_true_eq] at hyear
          exact hyear.1
        · unfold yearInRange at hyear
          simp only [Bool.and_eq_true, decide_eq_true_eq] at hyear
          exact hyear.2
    | str s0 => exact Bool.noConfusion hyear
  · intro kd hkd cd hcd hkey
    rw [huhdr] at hkd
    rcases List.mem_map.1 hkd with ⟨kd4, hkd4, rfl⟩
    have hkey2 : myLower kd4.1 = myLower cd.1 := hkey
    have hcols4 : colNames (clean_text (validate_ranges (fix_types
        (remove_duplicates d)) 1970 2025)) =
        colNames (fix_types (remove_duplicates d)) := by
      rw [clean_text_eq, clean_text_step_colNames, clean_text_step_colNames]
      unfold colNames
      rw [hval3.2.1]
    have hcolt4 : kd4.1 ∈ colNames t := by
      have h1 : kd4.1 ∈ colNames (clean_text (validate_ranges (fix_types
          (remove_duplicates d)) 1970 2025)) := List.mem_map.2 ⟨kd4, hkd4, rfl⟩
      rw [hcols4, hcols2] at h1
      exact (mem_colNames_keptHeader.1 h1).1
    have htm1 : cd.1 ∈ canonNames :=
      (by decide : ∀ cd2 ∈ type_map, cd2.1 ∈ canonNames) cd hcd
    have htm2 : cd.1 ≠ "Bird_Species" ∧ cd.1 ≠ "Country" :=
      (by decide : ∀ cd2 ∈ type_map, cd2.1 ≠ "Bird_Species" ∧ cd2.1 ≠ "Country") cd hcd
    have hk4eq : kd4.1 = cd.1 := hcanon kd4.1 hcolt4 cd.1 htm1 hkey2
    have h1 : kd4 ∈ (clean_text_step (clean_text_step (validate_ranges (fix_types
        (remove_duplicates d)) 1970 2025) "Bird_Species") "Country").header := by
      rw [← clean_text_eq]
      exact hkd4
    have h2 : kd4 ∈ (clean_text_step (validate_ranges (fix_types
        (remove_duplicates d)) 1970 2025) "Bird_Species").header :=
      clean_text_step_header_mem h1 (by rw [hk4eq]; exact htm2.2)
    have h3 : kd4 ∈ (validate_ranges (fix_types (remove_duplicates d))
        1970 2025).header :=
      clean_text_step_header_mem h2 (by rw [hk4eq]; exact htm2.1)
    have hkd2 : kd4 ∈ (fix_types (remove_duplicates d)).header := by
      rw [hval3.2.1] at h3
      exact h3
    rw [hhdr2] at hkd2
    rcases List.mem_map.1 hkd2 with ⟨kd1, hkd1, heq⟩
    rcases halk : alook kd1.1 type_map with _ | dt
    · rw [halk] at heq
      have heq2 : kd1 = kd4 := heq
      have hfst : kd1.1 = cd.1 := by rw [heq2, hk4eq]
      rw [hfst] at halk
      have hsome : alook cd.1 type_map = some cd.2 :=
        alook_of_mem_nodup (by decide) hcd
      rw [hsome] at halk
      cases halk
    · rw [halk] at heq
      have heq2 : (if castOK dt (colVals (remove_duplicates d).rows kd1.1)
          then (kd1.1, dt) else kd1) = kd4 := heq
      by_cases hcast : castOK dt (colVals (remove_duplicates d).rows kd1.1) = true
      · rw [if_pos hcast] at heq2
        have hfst : kd1.1 = cd.1 := by rw [← hk4eq, ← heq2]
        have hsome : alook cd.1 type_map = some cd.2 :=
          alook_of_mem_nodup (by decide) hcd
        rw [hfst, hsome] at halk
        have hdt : cd.2 = dt := by injection halk
        left
        show kd4.2 = cd.2
        rw [← heq2, hdt]
      · rw [if_neg hcast] at heq2
        right
        show (cd.1, kd4.2) ∈ t.header
        have hinmem : kd4 ∈ d.header := by
          rw [← heq2]
          exact hkd1
        have hpair : (cd.1, kd4.2) = kd4 := by
          rw [← hk4eq]
        rw [hpair]
        rw [hdhdr] at hinmem
        exact (List.filter_sublist _).subset hinmem
  · intro r hr kv hkv hkor
    rw [hurows] at hr
    rcases List.mem_map.1 hr with ⟨r3, hr3, rfl⟩
    rcases List.mem_map.1 hkv with ⟨kv0, hkv0, rfl⟩
    have hcolt : kv0.1 ∈ colNames t := by
      have h1 : kv0.1 ∈ (keptHeader t (1 / 2)).map Prod.fst := by
        rw [← hkeys3 r3 hr3]
        exact List.mem_map.2 ⟨kv0, hkv0, rfl⟩
      exact (mem_colNames_keptHeader.1 h1).1
    have hk0 : kv0.1 ∈ text_cols := by
      rcases hkor with hx | hx
      · have hx2 : myLower kv0.1 = "bird_species" := hx
        have h5 : kv0.1 = "Bird_Species" :=
          hcanon kv0.1 hcolt "Bird_Species" (by decide) (by rw [hx2]; decide)
        rw [h5]
        decide
      · have hx2 : myLower kv0.1 = "country" := hx
        have h5 : kv0.1 = "Country" :=
          hcanon kv0.1 hcolt "Country" (by decide) (by rw [hx2]; decide)
        rw [h5]
        decide
    have h1 := hfixentry r3 hr3 kv0 hkv0 hk0
    rcases textCellClean_fix kv0.2 with ⟨s, hs, ht1, ht2⟩
    rw [h1] at hs
    exact ⟨s, hs, ht1, ht2⟩
  · intro kd hkd
    rw [huhdr] at hkd
    rcases List.mem_map.1 hkd with ⟨kd4, hkd4, rfl⟩
    exact noUpper_myLower kd4.1

/-- C1 witness: the canonical, pre-normalised fixture runs end to end and its
output has no duplicate rows. -/
theorem C1_witness : exCleanOut.rows.Nodup :=
  (C1_clean_bird_data exClean exCleanOut
    (by unfold wfTable; decide)
    (by unfold wfCells; decide)
    (by decide)
    (by unfold canonicalCasing; decide)
    (by decide)
    (by
      have h1 : handle_missing exClean (1 / 2) "median" = some exClean :=
        handle_missing_clean "median" (by decide) (by norm_num)
      unfold clean_bird_data
      rw [h1]
      rfl)).1
